import Mathlib

/-!
Verification of the gogo streaming tool-calling engine.

This file gives a shallow embedding, in Lean 4, of the core of the `gogo`
command-line client (Go source): the server-sent-event reader
(`internal/stream.ReadEvents`), the per-provider tool-call accumulators and
orchestration loops (OpenAI / Anthropic / Gemini adapters), the tool registry
and loader (`internal/plugin`), the HTTP / subprocess tool executors, and the
built-in filesystem tool (`internal/tool/fs.go`).

Conventions of the embedding:
* byte streams are represented as lists of already-split text lines (Go's
  `bufio.Scanner` with the default line splitter);
* Go maps are represented as association lists; where Go iterates over a map
  (an order the Go runtime deliberately leaves unspecified), the embedding
  either takes the iteration order as an explicit parameter constrained to be
  a permutation of the entries, or treats the association-list order as the
  map's enumeration order;
* the operating system, the network and spawned subprocesses are abstracted
  as explicit oracle records supplied to the functions that use them;
* JSON documents are represented by the inductive `JValue`; tool inputs are
  `Option JValue` (`none` models an empty byte slice); syntactically invalid
  JSON byte strings are outside the model;
* Go's `strings.TrimSpace`, `strings.HasPrefix` and `strings.ReplaceAll`
  are modelled by the character-list functions `trimSpace`, `hasPrefixStr`
  and `replaceAll` below (identical on the ASCII data the claims concern).
-/

set_option autoImplicit false

namespace Gogo

/-! ### JSON values

`encoding/json`'s `interface\x7b\x7d` decoding target, as an inductive type.
Numbers are modelled as integers (Go decodes into `float64`; no claim
exercises fractional formatting). -/

inductive JValue where
  | null
  | bool (b : Bool)
  | num (n : Int)
  | str (s : String)
  | arr (xs : List JValue)
  | obj (fields : List (String × JValue))

/-- Hex digit pair of a byte below 256. -/
def hexByte (n : Nat) : String :=
  String.mk [Nat.digitChar (n / 16 % 16), Nat.digitChar (n % 16)]

/-- `encoding/json` string escaping: quote, backslash, the common control
characters, and (Go's default HTML-safe mode) `<`, `>`, `&`. -/
def jsonEscapeChar (c : Char) : String :=
  if c = '"' then "\\\""
  else if c = '\\' then "\\\\"
  else if c = '\n' then "\\n"
  else if c = '\r' then "\\r"
  else if c = '\t' then "\\t"
  else if c = '<' then "\\u003c"
  else if c = '>' then "\\u003e"
  else if c = '&' then "\\u0026"
  else if c.toNat < 32 then "\\u00" ++ hexByte c.toNat
  else String.singleton c

/-- A JSON string literal with escaping. -/
def jsonQuote (s : String) : String :=
  "\"" ++ String.join (s.data.map jsonEscapeChar) ++ "\""

mutual

/-- `json.Marshal` of a decoded value.  Go serializes map keys in sorted
order; the embedding serializes the association list in its given order (the
list stands for the map with one fixed enumeration order — no claim depends
on the key order inside a serialized object). -/
def serializeJ : JValue → String
  | .null => "null"
  | .bool true => "true"
  | .bool false => "false"
  | .num n => toString n
  | .str s => jsonQuote s
  | .arr xs => "[" ++ serializeArr xs ++ "]"
  | .obj fs => "\x7b" ++ serializeFields fs ++ "\x7d"

def serializeArr : List JValue → String
  | [] => ""
  | [x] => serializeJ x
  | x :: y :: xs => serializeJ x ++ "," ++ serializeArr (y :: xs)

def serializeFields : List (String × JValue) → String
  | [] => ""
  | [(k, v)] => jsonQuote k ++ ":" ++ serializeJ v
  | (k, v) :: q :: fs => jsonQuote k ++ ":" ++ serializeJ v ++ "," ++ serializeFields (q :: fs)

end

/-! ### String primitives

Computable models (by structural recursion over the character list) of the
Go standard-library string functions the source uses: `strings.HasPrefix`,
`strings.TrimSpace` (ASCII whitespace) and `strings.ReplaceAll`. -/

/-- `strings.HasPrefix`. -/
def hasPrefixStr (s pre : String) : Bool := pre.data.isPrefixOf s.data

/-- `strings.TrimSpace` (on the ASCII whitespace the streams contain). -/
def trimSpace (s : String) : String :=
  String.mk (((s.data.dropWhile Char.isWhitespace).reverse.dropWhile
    Char.isWhitespace).reverse)

/-- The scan loop of `strings.ReplaceAll`: replace non-overlapping
occurrences of `pat` left to right.  The fuel is an upper bound on the
number of steps; with `pat` non-empty every step consumes at least one
character, so `fuel = length` suffices. -/
def replaceGo (pat rep : List Char) : Nat → List Char → List Char
  | 0, l => l
  | _ + 1, [] => []
  | fuel + 1, c :: rest =>
    if pat.isPrefixOf (c :: rest) then
      rep ++ replaceGo pat rep fuel ((c :: rest).drop pat.length)
    else
      c :: replaceGo pat rep fuel rest

/-- `strings.ReplaceAll` for a non-empty pattern (the placeholder patterns
substituted by this program are never empty). -/
def replaceAll (s pat rep : String) : String :=
  if pat = "" then s
  else String.mk (replaceGo pat.data rep.data s.data.length s.data)

/-! ### Event reader — `internal/stream/stream.go`, `ReadEvents` -/

/-- The buffer update for one `data:` line: Go writes `"\n"` first when the
buffer is non-empty, then the payload (`stream.go` lines 35-38). -/
def bufAppend (buf payload : String) : String :=
  if buf ≠ "" then buf ++ "\n" ++ payload else payload

/-- Content extracted from a `data:`-prefixed line:
`strings.TrimSpace(strings.TrimPrefix(line, "data:"))` (`stream.go` line 34). -/
def dataContent (line : String) : String :=
  trimSpace (line.drop 5)

/-- The scanner loop of `ReadEvents`, processing the remaining lines with the
current buffer contents; emitted payloads are collected in order.  A blank
line flushes a non-empty buffer; a `data:` line appends to the buffer; other
lines are ignored; end of stream flushes once (`stream.go` lines 25-44). -/
def readEventsGo : List String → String → List String
  | [], buf => if buf = "" then [] else [buf]
  | line :: rest, buf =>
    if line = "" then
      (if buf = "" then [] else [buf]) ++ readEventsGo rest ""
    else if hasPrefixStr line "data:" then
      readEventsGo rest (bufAppend buf (dataContent line))
    else
      readEventsGo rest buf

/-- `ReadEvents` on a whole stream of lines: the payloads passed to `onData`,
in order. -/
def ReadEvents (lines : List String) : List String :=
  readEventsGo lines ""

/-- The `data:`-line contents of a block, in arrival order (specification
side: "the lines' contents"). -/
def blockContents (lines : List String) : List String :=
  (lines.filter (fun l => hasPrefixStr l "data:")).map dataContent

/-- Specification-side join: the contents joined by a newline separator. -/
def joinNL : List String → String
  | [] => ""
  | [c] => c
  | c :: c' :: cs => c ++ "\n" ++ joinNL (c' :: cs)

/-- Helper: concatenation of `"\n" ++ c` for each content `c`. -/
def concatWithNL : List String → String
  | [] => ""
  | c :: cs => "\n" ++ c ++ concatWithNL cs

/-! ### Tool registry — `internal/plugin/plugin.go` -/

/-- `plugin.Tool` (`plugin.go` lines 20-53).  The input schema is a decoded
JSON document; `none` models an absent schema. -/
structure Tool where
  name : String := ""
  description : String := ""
  type : String := ""
  url : String := ""
  method : String := ""
  headers : List (String × String) := []
  body : String := ""
  command : String := ""
  args : List String := []
  inputSchema : Option JValue := none
  timeoutMS : Nat := 0

/-- `plugin.Registry.tools`, a Go `map[string]*Tool`, as an association
list. -/
abbrev Registry := List (String × Tool)

/-- Map lookup (`Registry.Get`). -/
def lookupTool (reg : Registry) (name : String) : Option Tool :=
  (reg.find? (fun p => p.1 = name)).map (fun p => p.2)

/-- Map assignment `r.tools[t.Name] = t`: replace the existing entry for the
key, else add the entry. -/
def insertTool (reg : Registry) (key : String) (t : Tool) : Registry :=
  if reg.any (fun p => p.1 = key) then
    reg.map (fun p => if p.1 = key then (key, t) else p)
  else
    reg ++ [(key, t)]

/-- `Registry.Register` (`plugin.go` lines 75-90): validation, then map
assignment. -/
def register (reg : Registry) (t : Tool) : Except String Registry :=
  if t.name = "" then .error "tool name is required"
  else if t.type ≠ "http" ∧ t.type ≠ "exec" ∧ t.type ≠ "builtin" then
    .error ("invalid tool type " ++ t.type)
  else if t.type = "http" ∧ t.url = "" then .error "url is required for http tools"
  else if t.type = "exec" ∧ t.command = "" then .error "command is required for exec tools"
  else .ok (insertTool reg t.name t)

/-- The registration loop of `LoadFromFile` (`loader.go` lines 29-35): an
entry failing validation is skipped, the rest are still registered.  The file
read and JSON decode of the declaration file are abstracted: `ts` is the
decoded `tools` list. -/
def loadTools (ts : List Tool) : Registry :=
  ts.foldl (fun reg t =>
    match register reg t with
    | .ok reg' => reg'
    | .error _ => reg) []

/-- The registration invariant of the specification (§3 ToolDefinition):
non-empty name, kind in the allowed set, a URL for http tools, a command for
exec tools. -/
def ValidTool (t : Tool) : Prop :=
  t.name ≠ "" ∧ (t.type = "http" ∨ t.type = "exec" ∨ t.type = "builtin") ∧
    (t.type = "http" → t.url ≠ "") ∧ (t.type = "exec" → t.command ≠ "")

instance (t : Tool) : Decidable (ValidTool t) := by
  unfold ValidTool
  infer_instance

/-- The input schema of the built-in filesystem tool (`builtin.go`,
`BuiltinFS`). -/
def builtinFSSchema : JValue :=
  .obj [("type", .str "object"),
        ("properties", .obj [
          ("op", .obj [("type", .str "string"),
            ("description", .str "Operation: read, write, append, delete, mkdir, rmdir, list, stat, move, copy")]),
          ("path", .obj [("type", .str "string"),
            ("description", .str "File or directory path")]),
          ("data", .obj [("type", .str "string"),
            ("description", .str "Data to write (for write/append)")]),
          ("dest", .obj [("type", .str "string"),
            ("description", .str "Destination path (for move/copy)")])]),
        ("required", .arr [.str "op", .str "path"])]

/-- `plugin.BuiltinFS` (`builtin.go` lines 13-29). -/
def builtinFS : Tool :=
  { name := "fs"
    description := "Filesystem operations (read/write/append/delete/mkdir/rmdir/list/stat/move/copy)"
    type := "builtin"
    inputSchema := some builtinFSSchema }

/-- `plugin.LoadWithBuiltins` (`builtin.go` lines 46-58): load the user
registry (from the decoded declaration list), then assign the built-in `fs`
tool over whatever the user registry holds under that name. -/
def loadWithBuiltins (userTools : List Tool) : Registry :=
  insertTool (loadTools userTools) "fs" { builtinFS with type := "builtin" }

/-! ### Built-in filesystem tool — `internal/tool/fs.go` -/

/-- One directory listing entry (`fs.go` `entry`); `modTime` is an abstract
timestamp. -/
structure DirEntry where
  name : String
  isDir : Bool
  size : Int
  mode : String
  modTime : Int

/-- Metadata returned by `os.Stat`, without the request path. -/
structure FileMeta where
  isDir : Bool
  size : Int
  mode : String
  modTime : Int

/-- `fs.go` `statInfo`: the stat metadata together with the request path. -/
structure StatInfo where
  path : String
  isDir : Bool
  size : Int
  mode : String
  modTime : Int

/-- The payloads a tool result can carry (`interface\x7b\x7d` in Go): a raw
string, a directory listing, stat metadata, or a decoded JSON document. -/
inductive RData where
  | fstr (s : String)
  | entries (es : List DirEntry)
  | statI (i : StatInfo)
  | jv (j : JValue)

/-- `tool.FSRequest`. -/
structure FSRequest where
  op : String := ""
  path : String := ""
  data : String := ""
  dest : String := ""
deriving DecidableEq

/-- `tool.FSResult`. -/
structure FSResult where
  ok : Bool
  data : Option RData := none
  error : String := ""

/-- The operating-system layer used by `fs.go`, abstracted: each primitive
either succeeds or fails with an OS error message.  `readDir` folds in the
per-entry `Info()` errors of `listDir`; `copyFile` folds in the
open/create/`io.Copy`/`Sync` chain of `copyPath`; `dirOf` is
`filepath.Dir`. -/
structure Storage where
  readFile : String → Except String String
  writeFile : String → String → Except String Unit
  appendFile : String → String → Except String Unit
  removeAll : String → Except String Unit
  mkdirAll : String → Except String Unit
  remove : String → Except String Unit
  readDir : String → Except String (List DirEntry)
  statMeta : String → Except String FileMeta
  rename : String → String → Except String Unit
  copyFile : String → String → Except String Unit
  dirOf : String → String

def errFS (e : String) : FSResult := ⟨false, none, e⟩

/-- `readFile` (`fs.go` lines 67-76). -/
def readFileM (st : Storage) (path : String) : FSResult :=
  if path = "" then errFS "path is required"
  else match st.readFile path with
    | .error e => errFS e
    | .ok s => ⟨true, some (.fstr s), ""⟩

/-- `writeFile` (`fs.go` lines 78-86). -/
def writeFileM (st : Storage) (path data : String) : FSResult :=
  if path = "" then errFS "path is required"
  else match st.writeFile path data with
    | .error e => errFS e
    | .ok _ => ⟨true, none, ""⟩

/-- `appendFile` (`fs.go` lines 88-101). -/
def appendFileM (st : Storage) (path data : String) : FSResult :=
  if path = "" then errFS "path is required"
  else match st.appendFile path data with
    | .error e => errFS e
    | .ok _ => ⟨true, none, ""⟩

/-- `removeAll` (`fs.go` lines 103-111). -/
def removeAllM (st : Storage) (path : String) : FSResult :=
  if path = "" then errFS "path is required"
  else match st.removeAll path with
    | .error e => errFS e
    | .ok _ => ⟨true, none, ""⟩

/-- `makeDir` (`fs.go` lines 113-121). -/
def makeDirM (st : Storage) (path : String) : FSResult :=
  if path = "" then errFS "path is required"
  else match st.mkdirAll path with
    | .error e => errFS e
    | .ok _ => ⟨true, none, ""⟩

/-- `removeDir` (`fs.go` lines 123-131). -/
def removeDirM (st : Storage) (path : String) : FSResult :=
  if path = "" then errFS "path is required"
  else match st.remove path with
    | .error e => errFS e
    | .ok _ => ⟨true, none, ""⟩

/-- `listDir` (`fs.go` lines 133-156): an empty path is defaulted to `"."`,
not rejected. -/
def listDirM (st : Storage) (path : String) : FSResult :=
  let path := if path = "" then "." else path
  match st.readDir path with
  | .error e => errFS e
  | .ok es => ⟨true, some (.entries es), ""⟩

/-- `statPath` (`fs.go` lines 158-173). -/
def statPathM (st : Storage) (path : String) : FSResult :=
  if path = "" then errFS "path is required"
  else match st.statMeta path with
    | .error e => errFS e
    | .ok m => ⟨true, some (.statI ⟨path, m.isDir, m.size, m.mode, m.modTime⟩), ""⟩

/-- `movePath` (`fs.go` lines 175-183). -/
def movePathM (st : Storage) (src dst : String) : FSResult :=
  if src = "" ∨ dst = "" then errFS "path and dest are required"
  else match st.rename src dst with
    | .error e => errFS e
    | .ok _ => ⟨true, none, ""⟩

/-- `copyPath` (`fs.go` lines 185-216). -/
def copyPathM (st : Storage) (src dst : String) : FSResult :=
  if src = "" ∨ dst = "" then errFS "path and dest are required"
  else match st.statMeta src with
    | .error e => errFS e
    | .ok m =>
      if m.isDir then errFS "copy supports files only"
      else match st.mkdirAll (st.dirOf dst) with
        | .error e => errFS e
        | .ok _ => match st.copyFile src dst with
          | .error e => errFS e
          | .ok _ => ⟨true, none, ""⟩

/-- `tool.FS` (`fs.go` lines 40-65): dispatch on the operation name. -/
def FS (st : Storage) (req : FSRequest) : FSResult :=
  if req.op = "read" then readFileM st req.path
  else if req.op = "write" then writeFileM st req.path req.data
  else if req.op = "append" then appendFileM st req.path req.data
  else if req.op = "delete" then removeAllM st req.path
  else if req.op = "mkdir" then makeDirM st req.path
  else if req.op = "rmdir" then removeDirM st req.path
  else if req.op = "list" then listDirM st req.path
  else if req.op = "stat" then statPathM st req.path
  else if req.op = "move" then movePathM st req.path req.dest
  else if req.op = "copy" then copyPathM st req.path req.dest
  else errFS "unknown op"

/-! ### Tool execution — `internal/plugin/plugin.go`, `provider.go`,
`builtin.go` -/

/-- `plugin.Result`. -/
structure PResult where
  ok : Bool
  data : Option RData := none
  error : String := ""

/-- The field copy in `ExecuteFS` (`builtin.go` lines 37-42). -/
def resultOfFS (r : FSResult) : PResult := ⟨r.ok, r.data, r.error⟩

/-- The last JSON field with a given key (Go's decoder keeps the last
duplicate). -/
def lastField (fs : List (String × JValue)) (k : String) : Option JValue :=
  ((fs.filter (fun p => p.1 = k)).getLast?).map (fun p => p.2)

/-- Extract an optional string field when decoding into a string struct
field; a present non-string value is a decode error (the exact Go error text
is a standard-library detail, abbreviated here). -/
def getStrField (fs : List (String × JValue)) (k : String) : Except String String :=
  match lastField fs k with
  | none => .ok ""
  | some (.str s) => .ok s
  | some _ => .error ("cannot unmarshal field " ++ k)

/-- `json.Unmarshal(input, &req)` for `tool.FSRequest`: empty input and
non-object documents are decode errors, `null` leaves the zero struct,
missing fields default to the empty string. -/
def decodeFSRequest : Option JValue → Except String FSRequest
  | none => .error "unexpected end of JSON input"
  | some .null => .ok {}
  | some (.obj fs) =>
    match getStrField fs "op", getStrField fs "path", getStrField fs "data",
        getStrField fs "dest" with
    | .ok o, .ok p, .ok d, .ok de => .ok ⟨o, p, d, de⟩
    | .error e, _, _, _ => .error e
    | _, .error e, _, _ => .error e
    | _, _, .error e, _ => .error e
    | _, _, _, .error e => .error e
  | some _ => .error "cannot unmarshal value into FSRequest"

/-- `plugin.ExecuteFS` (`builtin.go` lines 32-43). -/
def executeFS (st : Storage) (input : Option JValue) : PResult :=
  match decodeFSRequest input with
  | .error e => ⟨false, none, e⟩
  | .ok req => resultOfFS (FS st req)

/-- `plugin.ExecuteBuiltin` (`builtin.go` lines 61-68). -/
def executeBuiltin (st : Storage) (name : String) (input : Option JValue) :
    Option PResult :=
  if name = "fs" then some (executeFS st input) else none

/-- One `\x7b\x7b.field\x7d\x7d` placeholder. -/
def placeholder (key : String) : String := "\x7b\x7b." ++ key ++ "\x7d\x7d"

/-- The replacement text of one argument value in `substituteTemplate`
(`plugin.go` lines 272-279): strings verbatim, everything else via
`json.Marshal`. -/
def paramString : JValue → String
  | .str s => s
  | v => serializeJ v

/-- `plugin.substituteTemplate` (`plugin.go` lines 267-283).  Go ranges over
the params map in unspecified order; the association-list order stands for
that enumeration. -/
def substituteTemplate (template : String) (params : List (String × JValue)) : String :=
  params.foldl (fun acc kv => replaceAll acc (placeholder kv.1) (paramString kv.2)) template

/-- `textproto.CanonicalMIMEHeaderKey` case normalization: upper-case after
the start or a dash, lower-case elsewhere (Go leaves keys containing
non-token bytes unchanged; the embedding assumes token keys). -/
def canonChars : Bool → List Char → List Char
  | _, [] => []
  | upper, c :: cs => (if upper then c.toUpper else c.toLower) :: canonChars (c = '-') cs

def canonicalHeaderKey (s : String) : String := String.mk (canonChars true s.data)

/-- `http.Header.Set`: canonicalize the key, replace any existing value. -/
def setHeader (hs : List (String × String)) (k v : String) : List (String × String) :=
  let ck := canonicalHeaderKey k
  if hs.any (fun p => p.1 = ck) then
    hs.map (fun p => if p.1 = ck then (ck, v) else p)
  else
    hs ++ [(ck, v)]

/-- `http.Header.Get`. -/
def getHeader (hs : List (String × String)) (k : String) : Option String :=
  (hs.find? (fun p => p.1 = canonicalHeaderKey k)).map (fun p => p.2)

def isShellSpecialVar (c : Char) : Bool :=
  c = '*' || c = '#' || c = '$' || c = '@' || c = '!' || c = '?' || c.isDigit

def isAlphaNumChar (c : Char) : Bool := c = '_' || c.isAlpha || c.isDigit

/-- The `$\x7b...\x7d` arm of `os.Expand`'s `getShellName`, scanning for the
closing brace (the Go fast path for `$\x7bV\x7d` with `V` a special variable
returns the same value this scan does). -/
def braceName (rest : List Char) : List Char × Nat :=
  let name := rest.takeWhile (fun c => c ≠ '}')
  if name.length = rest.length then ([], 1)
  else if name.isEmpty then ([], 2)
  else (name, name.length + 2)

/-- `os.Expand`'s `getShellName`: the variable name after a `$` and the
number of input characters it spans. -/
def getShellName : List Char → List Char × Nat
  | [] => ([], 0)
  | '{' :: rest => braceName rest
  | c :: rest =>
    if isShellSpecialVar c then ([c], 1)
    else
      let name := (c :: rest).takeWhile isAlphaNumChar
      (name, name.length)

/-- The scan loop of `os.Expand` over the character list.  The fuel is an
upper bound on the number of steps; every step consumes at least one
character, so `fuel = length` always suffices and the `0` fallback is
unreachable from `expandEnv`. -/
def expandGo (env : String → String) : Nat → List Char → List Char
  | 0, l => l
  | _ + 1, [] => []
  | fuel + 1, '$' :: rest =>
    if rest.isEmpty then ['$']
    else
      match getShellName rest with
      | ([], w) =>
        if w > 0 then expandGo env fuel (rest.drop w)
        else '$' :: expandGo env fuel rest
      | (name, w) => (env (String.mk name)).data ++ expandGo env fuel (rest.drop w)
  | fuel + 1, c :: rest => c :: expandGo env fuel rest

/-- `plugin.substituteEnvVars` = `os.ExpandEnv`; `env` is the process
environment with unset variables mapped to the empty string (`os.Getenv`). -/
def expandEnv (env : String → String) (s : String) : String :=
  String.mk (expandGo env s.data.length s.data)

/-- The outbound HTTP request assembled by `executeHTTP`. -/
structure HTTPReq where
  method : String
  url : String
  headers : List (String × String)
  body : Option String

/-- `Tool.Method` defaulting (`plugin.go` lines 174-177). -/
def defaultedMethod (m : String) : String := if m = "" then "POST" else m

/-- The request-construction part of `executeHTTP` (`plugin.go` lines
156-192): placeholder substitution in the URL; body from the body template
(with placeholder substitution) or, if no template is declared and the
parsed arguments are non-empty, the JSON serialization of the arguments;
headers from the declared headers with environment-variable expansion (and
only that); a default `Content-Type` for `POST`/`PUT` when none was set. -/
def buildHTTPRequest (env : String → String) (t : Tool)
    (params : List (String × JValue)) : HTTPReq :=
  let url := substituteTemplate t.url params
  let body : Option String :=
    if t.body ≠ "" then some (substituteTemplate t.body params)
    else if ¬ params.isEmpty then some (serializeJ (.obj params))
    else none
  let method := defaultedMethod t.method
  let hs := t.headers.foldl (fun hs kv => setHeader hs kv.1 (expandEnv env kv.2)) []
  let hs :=
    if (method = "POST" ∨ method = "PUT") ∧ (getHeader hs "Content-Type").isNone then
      setHeader hs "Content-Type" "application/json"
    else hs
  ⟨method, url, hs, body⟩

/-- An HTTP response (the transport itself is abstracted; `client.Do` and
body-read failures are outside the model). -/
structure HTTPResp where
  status : Nat
  body : String

/-- What a spawned subprocess did, relative to the configured timeout:
whether `cmd.Run()` finished before the `time.After` timer fired (the
`select` race of `plugin.go` lines 240-254), the error value of `Run` if it
finished, and the captured output streams. -/
structure ProcOutcome where
  completedWithinTimeout : Bool
  runError : Option String
  stdoutStr : String
  stderrStr : String

/-- The external world of the tool executors: the network, the process
spawner (keyed by substituted command, args and the timeout in
milliseconds), a JSON parser for response/stdout bodies, and the process
environment. -/
structure Oracles where
  storage : Storage
  respond : HTTPReq → HTTPResp
  proc : String → List String → Nat → ProcOutcome
  parseJSON : String → Option JValue
  env : String → String

/-- `executeHTTP` (`plugin.go` lines 156-217): build the request, send it,
fail on status ≥ 400 with the response body in the error, otherwise return
the body JSON-parsed if possible, else raw. -/
def executeHTTPM (o : Oracles) (t : Tool) (params : List (String × JValue))
    (timeoutMS : Nat) : PResult :=
  let _ := timeoutMS
  let req := buildHTTPRequest o.env t params
  let resp := o.respond req
  if resp.status ≥ 400 then
    ⟨false, none, "HTTP " ++ toString resp.status ++ ": " ++ resp.body⟩
  else
    match o.parseJSON resp.body with
    | some j => ⟨true, some (.jv j), ""⟩
    | none => ⟨true, some (.fstr resp.body), ""⟩

/-- `executeExec` (`plugin.go` lines 219-265): substitute placeholders into
the command and each argument, run the process, and race completion against
the timeout.  A timer win reports exactly `"command timed out"`; a non-zero
exit reports the captured standard error, falling back to the Go error text
when standard error is empty; success returns standard output, JSON-parsed
if possible. -/
def executeExecM (o : Oracles) (t : Tool) (params : List (String × JValue))
    (timeoutMS : Nat) : PResult :=
  let command := substituteTemplate t.command params
  let args := t.args.map (fun a => substituteTemplate a params)
  let po := o.proc command args timeoutMS
  if ¬ po.completedWithinTimeout then ⟨false, none, "command timed out"⟩
  else
    match po.runError with
    | some err => ⟨false, none, if po.stderrStr = "" then err else po.stderrStr⟩
    | none =>
      match o.parseJSON po.stdoutStr with
      | some j => ⟨true, some (.jv j), ""⟩
      | none => ⟨true, some (.fstr po.stdoutStr), ""⟩

/-- The parameter map extracted from the raw input by `Tool.Execute`
(`plugin.go` lines 127-136): empty input and JSON `null` give an empty map,
a JSON object gives its fields, any other document is an input error. -/
def paramsOf : Option JValue → Except String (List (String × JValue))
  | none => .ok []
  | some .null => .ok []
  | some (.obj fs) => .ok fs
  | some _ => .error "invalid input"

/-- The timeout of `Tool.Execute` (`plugin.go` lines 138-141): the declared
per-tool timeout in milliseconds, defaulting to 30 seconds when the tool
declares none. -/
def effTimeoutMS (t : Tool) : Nat := if t.timeoutMS = 0 then 30000 else t.timeoutMS

/-- `Tool.Execute` (`plugin.go` lines 126-154). -/
def toolExecute (o : Oracles) (t : Tool) (input : Option JValue) : PResult :=
  match paramsOf input with
  | .error e => ⟨false, none, e⟩
  | .ok params =>
    let timeout := effTimeoutMS t
    if t.type = "http" then executeHTTPM o t params timeout
    else if t.type = "exec" then executeExecM o t params timeout
    else if t.type = "builtin" then
      ⟨false, none, "builtin tools must be executed via ExecuteBuiltin"⟩
    else ⟨false, none, "unknown tool type: " ++ t.type⟩

/-- `Registry.ExecuteTool` (`provider.go` lines 38-53): look the tool up,
dispatch builtin tools to `ExecuteBuiltin`, everything else to
`Tool.Execute`. -/
def executeTool (o : Oracles) (reg : Registry) (name : String)
    (input : Option JValue) : PResult :=
  match lookupTool reg name with
  | none => ⟨false, none, "unknown tool: " ++ name⟩
  | some t =>
    if t.type = "builtin" then
      match executeBuiltin o.storage name input with
      | some res => res
      | none => ⟨false, none, "unhandled builtin tool: " ++ name⟩
    else toolExecute o t input

/-! ### OpenAI adapter accumulator — `openai.go`, `openAIStreamOnce` -/

/-- `toolCall` (`openai.go` lines 61-66). -/
structure OACall where
  id : String
  callId : String
  name : String
  args : String
deriving DecidableEq, Repr

/-- The decoded stream events `openAIStreamOnce` reacts to (`openai.go`
lines 165-213): `response.created`, `response.output_text.delta`,
`response.output_item.added`, `response.function_call_arguments.delta`, and
anything else. -/
inductive OAEvent where
  | created (responseId : String)
  | textDelta (text : String)
  | itemAdded (itemType id callId name args : String)
  | argsDelta (itemId delta : String)
  | other
deriving DecidableEq, Repr

/-- `toolCalls[id] = &toolCall\x7b...\x7d` on a Go map, as an association
list keyed by item id: replace the value in place, else add the entry at the
end (the list order records the order calls were first started). -/
def oaInsert (calls : List OACall) (c : OACall) : List OACall :=
  if calls.any (fun d => d.id = c.id) then
    calls.map (fun d => if d.id = c.id then c else d)
  else
    calls ++ [c]

/-- `call.Arguments += delta.Delta` for the call with the fragment's item id,
when present (`openai.go` lines 209-211). -/
def oaAppendArgs (calls : List OACall) (itemId delta : String) : List OACall :=
  calls.map (fun c => if c.id = itemId then { c with args := c.args ++ delta } else c)

/-- One event step of the accumulator (`openai.go` lines 171-212): an added
`function_call` item with a non-empty id starts (or resets) a call; an
arguments delta appends verbatim to the call its item id names. -/
def oaStep (calls : List OACall) : OAEvent → List OACall
  | .itemAdded t i ci n a =>
    if t = "function_call" ∧ i ≠ "" then oaInsert calls ⟨i, ci, n, a⟩ else calls
  | .argsDelta i d => oaAppendArgs calls i d
  | _ => calls

/-- The pending calls at stream end, in the order they were first started. -/
def oaCollect (events : List OAEvent) : List OACall :=
  events.foldl oaStep []

/-- Lookup of the accumulated call with a given item id. -/
def oaFind (x : String) (calls : List OACall) : Option OACall :=
  calls.find? (fun c => c.id = x)

/-- The event is a `function_call` output item added under item id `x`. -/
def IsAddFor (x : String) : OAEvent → Prop
  | .itemAdded t i _ _ _ => t = "function_call" ∧ i = x
  | _ => False

instance (x : String) (e : OAEvent) : Decidable (IsAddFor x e) :=
  match e with
  | .itemAdded t i _ _ _ => inferInstanceAs (Decidable (t = "function_call" ∧ i = x))
  | .created _ => isFalse (fun h => h)
  | .textDelta _ => isFalse (fun h => h)
  | .argsDelta _ _ => isFalse (fun h => h)
  | .other => isFalse (fun h => h)

/-- The argument fragment an event carries for item id `x`, if any. -/
def fragFor (x : String) : OAEvent → Option String
  | .argsDelta i d => if i = x then some d else none
  | _ => none

/-- Plain concatenation of a list of strings. -/
def concatAll : List String → String
  | [] => ""
  | s :: ss => s ++ concatAll ss

/-- The concatenation, in arrival order, of exactly the argument fragments
carrying item id `x`. -/
def fragsConcat (x : String) (events : List OAEvent) : String :=
  concatAll (events.filterMap (fragFor x))

/-! ### Anthropic adapter accumulator — `anthropic.go`,
`anthropicStreamOnce` -/

/-- `toolUse` (`anthropic.go` lines 53-57). -/
structure ToolUse where
  id : String
  name : String
  input : String
deriving DecidableEq, Repr

/-- The decoded stream events `anthropicStreamOnce` reacts to
(`anthropic.go` lines 160-202).  On the wire a `content_block_delta` event
carries the index of the content block the fragment belongs to; the Go
decoder (`anthropicInputDelta`) reads only the fragment text, so `forId`
records the wire attribution that the code never consults. -/
inductive AnEvent where
  | blockStart (blockType id name : String)
  | textDelta (text : String)
  | inputDelta (forId piece : String)
  | other
deriving DecidableEq, Repr

/-- The accumulator state of `anthropicStreamOnce` (`anthropic.go` lines
151-152): the pending tool uses (a Go map keyed by block id, as an
association list in first-start order) and `activeToolID`, the id of the
most recently started `tool_use` block. -/
structure AnState where
  uses : List ToolUse
  activeToolID : String
deriving DecidableEq, Repr

/-- `toolUses[block.ID] = &toolUse\x7b...\x7d` on a Go map: replace the
value in place, else add the entry at the end. -/
def anInsert (uses : List ToolUse) (u : ToolUse) : List ToolUse :=
  if uses.any (fun d => d.id = u.id) then
    uses.map (fun d => if d.id = u.id then u else d)
  else
    uses ++ [u]

/-- `use.Input += input.Partial` applied to the use with the active id, when
present (`anthropic.go` lines 196-199). -/
def anAppendInput (uses : List ToolUse) (activeId piece : String) : List ToolUse :=
  uses.map (fun u => if u.id = activeId then { u with input := u.input ++ piece } else u)

/-- One event step of the Anthropic accumulator (`anthropic.go` lines
160-202): a `tool_use` block start registers the use and makes its id
active; an input fragment is appended to the use the *active id* names —
the fragment's own wire attribution is ignored; text deltas and other
events leave the accumulator unchanged. -/
def anStep (st : AnState) : AnEvent → AnState
  | .blockStart t i n =>
    if t = "tool_use" then ⟨anInsert st.uses ⟨i, n, ""⟩, i⟩ else st
  | .inputDelta _ piece =>
    if st.activeToolID ≠ "" then
      ⟨anAppendInput st.uses st.activeToolID piece, st.activeToolID⟩
    else st
  | _ => st

/-- The pending tool uses at stream end, in the order they were first
started. -/
def anCollect (events : List AnEvent) : List ToolUse :=
  (events.foldl anStep ⟨[], ""⟩).uses

/-- Lookup of the accumulated use with a given block id. -/
def anFind (x : String) (uses : List ToolUse) : Option ToolUse :=
  uses.find? (fun u => u.id = x)

/-- The event starts a `tool_use` content block. -/
def IsToolStart : AnEvent → Prop
  | .blockStart t _ _ => t = "tool_use"
  | _ => False

instance (e : AnEvent) : Decidable (IsToolStart e) :=
  match e with
  | .blockStart t _ _ => inferInstanceAs (Decidable (t = "tool_use"))
  | .textDelta _ => isFalse (fun h => h)
  | .inputDelta _ _ => isFalse (fun h => h)
  | .other => isFalse (fun h => h)

/-- The input fragment an event carries, whatever block the wire attributes
it to. -/
def anPiece : AnEvent → Option String
  | .inputDelta _ p => some p
  | _ => none

/-- The input fragment an event carries for block id `x` according to the
wire attribution (the identifier the fragment names). -/
def anPieceFor (x : String) : AnEvent → Option String
  | .inputDelta i p => if i = x then some p else none
  | _ => none

/-! ### Orchestration loops — `openai.go` `openAIStreamLoop`, `gemini.go`
`geminiStreamLoop` -/

/-- What one run of a stream loop did: how many times the provider was
contacted, which calls were executed (in execution order), and the call
identifiers embedded in the continuation turn. -/
structure RoundTrace where
  contacts : Nat
  executed : List OACall
  continuationIds : List String
deriving DecidableEq, Repr

/-- The execution pass of `openAIStreamLoop` (`openai.go` lines 102-115)
over the list of finalized calls in the order the adapter returned them:
calls whose name is absent from the registry are skipped before execution is
attempted; every other call is executed. -/
def executedSeq (reg : Registry) (calls : List OACall) : List OACall :=
  calls.filter (fun c => (lookupTool reg c.name).isSome)

/-- `openAIStreamLoop` (`openai.go` lines 92-123), over the finalized calls
of the round-1 stream and of the (potential) round-2 stream.  Round 2's
calls are bound and dropped by the Go code (`_, _, err = openAIStreamOnce`),
so they are never executed and never cause a further round. -/
def openAIStreamLoopM (reg : Registry) (round1 round2 : List OACall) : RoundTrace :=
  if round1.isEmpty then ⟨1, [], []⟩
  else
    let known := executedSeq reg round1
    let msgs := known.map (fun c => c.callId)
    if msgs.isEmpty then ⟨1, known, msgs⟩
    else
      let _ := round2
      ⟨2, known, msgs⟩

/-- `geminiFunctionCall`, with the arguments kept in their marshaled form
(`json.Marshal(call.Args)`, `gemini.go` line 102). -/
structure GemCall where
  name : String
  argsJSON : String
deriving DecidableEq, Repr

/-- A round trace for the Gemini loop. -/
structure GemTrace where
  contacts : Nat
  executed : List GemCall
  continuationNames : List String
deriving DecidableEq, Repr

/-- The execution pass of `geminiStreamLoop` (`gemini.go` lines 96-111). -/
def gemExecutedSeq (reg : Registry) (calls : List GemCall) : List GemCall :=
  calls.filter (fun c => (lookupTool reg c.name).isSome)

/-- `geminiStreamLoop` (`gemini.go` lines 87-120): same single-continuation
shape as the OpenAI loop; the calls of the second stream are bound and
dropped. -/
def geminiStreamLoopM (reg : Registry) (round1 round2 : List GemCall) : GemTrace :=
  if round1.isEmpty then ⟨1, [], []⟩
  else
    let known := gemExecutedSeq reg round1
    let responses := known.map (fun c => c.name)
    if responses.isEmpty then ⟨1, known, responses⟩
    else
      let _ := round2
      ⟨2, known, responses⟩

/-! ### Concrete fixtures used by witnesses and counterexamples -/

/-- A registry holding two valid exec tools named `t1` and `t2`. -/
def regT12 : Registry :=
  [("t1", { name := "t1", type := "exec", command := "cmd1" }),
   ("t2", { name := "t2", type := "exec", command := "cmd2" })]

/-- A storage oracle whose directory listing of any path is empty and whose
other primitives fail with a fixed message. -/
def storageEmptyList : Storage where
  readFile := fun _ => .error "io error"
  writeFile := fun _ _ => .error "io error"
  appendFile := fun _ _ => .error "io error"
  removeAll := fun _ => .error "io error"
  mkdirAll := fun _ => .error "io error"
  remove := fun _ => .error "io error"
  readDir := fun _ => .ok []
  statMeta := fun _ => .error "io error"
  rename := fun _ _ => .error "io error"
  copyFile := fun _ _ => .error "io error"
  dirOf := fun _ => "."

/-- An oracle set whose subprocess never finishes before the timer fires. -/
def oraclesTimeout : Oracles where
  storage := storageEmptyList
  respond := fun _ => ⟨200, ""⟩
  proc := fun _ _ _ => ⟨false, none, "", ""⟩
  parseJSON := fun _ => none
  env := fun _ => ""

/-- An oracle set whose subprocess exits non-zero within the timeout while
writing nothing to standard error. -/
def oraclesExitOne : Oracles where
  storage := storageEmptyList
  respond := fun _ => ⟨200, ""⟩
  proc := fun _ _ _ => ⟨true, some "exit status 1", "", ""⟩
  parseJSON := fun _ => none
  env := fun _ => ""

/-- An http tool declaring a header whose value is a placeholder. -/
def toolHdr : Tool :=
  { name := "h", type := "http", url := "http://example",
    headers := [("X-Arg", "\x7b\x7b.x\x7d\x7d")] }

/-- The http tool of the specification's template-substitution example:
an Authorization header naming an environment variable and a body
template with a placeholder. -/
def toolAuth : Tool :=
  { name := "w", type := "http", url := "http://example",
    headers := [("Authorization", "Bearer $TOKEN")],
    body := "\x7b\"q\":\"\x7b\x7b.query\x7d\x7d\"\x7d" }

/-- An environment holding only TOKEN=abc123. -/
def envTok : String → String := fun n => if n = "TOKEN" then "abc123" else ""

/-- An exec tool with a 100 ms timeout running a command that sleeps. -/
def execTool100 : Tool :=
  { name := "sleeper", type := "exec", command := "sleep", args := ["5"],
    timeoutMS := 100 }

/-- A storage oracle all of whose primitives fail with a distinct message. -/
def storageErrAll : Storage where
  readFile := fun _ => .error "open /x: no such file or directory"
  writeFile := fun _ _ => .error "open /x: no such file or directory"
  appendFile := fun _ _ => .error "open /x: no such file or directory"
  removeAll := fun _ => .error "open /x: no such file or directory"
  mkdirAll := fun _ => .error "open /x: no such file or directory"
  remove := fun _ => .error "open /x: no such file or directory"
  readDir := fun _ => .error "open /x: no such file or directory"
  statMeta := fun _ => .error "open /x: no such file or directory"
  rename := fun _ _ => .error "open /x: no such file or directory"
  copyFile := fun _ _ => .error "open /x: no such file or directory"
  dirOf := fun _ => "/"

/-! ## Theorems -/

/-! ### String helpers -/

theorem length_newline_str : ("\n" : String).length = 1 := rfl

theorem length_empty_str : ("" : String).length = 0 := rfl

theorem ne_empty_length_pos (b : String) (hb : b ≠ "") : 0 < b.length := by
  cases b with
  | mk l =>
      cases l with
      | nil => exact absurd rfl hb
      | cons c l => simp [String.length]

/-! ### Event reader properties (claim C4) -/

theorem joinNL_cons_eq (c : String) (cs : List String) :
    joinNL (c :: cs) = c ++ concatWithNL cs := by
  induction cs generalizing c with
  | nil => simp [joinNL, concatWithNL]
  | cons c' cs ih =>
      simp only [joinNL, concatWithNL, ih c']
      simp [String.append_assoc]

theorem bufAppend_ne_empty (b c : String) (hb : b ≠ "") : bufAppend b c ≠ "" := by
  unfold bufAppend
  rw [if_pos hb]
  intro h
  have h2 := congrArg String.length h
  rw [String.length_append, String.length_append, length_newline_str,
    length_empty_str] at h2
  omega

theorem append_concatWithNL_ne_empty (b : String) (cs : List String) (hb : b ≠ "") :
    b ++ concatWithNL cs ≠ "" := by
  intro h
  have h2 := congrArg String.length h
  rw [String.length_append, length_empty_str] at h2
  have hb' := ne_empty_length_pos b hb
  omega

theorem foldl_bufAppend_of_ne (b : String) (cs : List String) (hb : b ≠ "") :
    List.foldl bufAppend b cs = b ++ concatWithNL cs := by
  induction cs generalizing b with
  | nil => simp [concatWithNL]
  | cons c cs ih =>
      have hb' : bufAppend b c ≠ "" := bufAppend_ne_empty b c hb
      simp only [List.foldl_cons, ih _ hb', concatWithNL]
      unfold bufAppend
      rw [if_pos hb]
      rw [← String.append_assoc, ← String.append_assoc]

/-- The buffer obtained by folding the block's contents from an empty buffer:
leading empty contents leave the buffer empty (no separator is written), after
the first non-empty content every further content gets a separator. -/
theorem foldl_bufAppend_empty (cs : List String) :
    List.foldl bufAppend "" cs =
      (match cs.dropWhile (· = "") with
       | [] => ""
       | c :: cs' => c ++ concatWithNL cs') := by
  induction cs with
  | nil => rfl
  | cons c cs ih =>
      by_cases hc : c = ""
      · subst hc
        have h0 : bufAppend "" "" = "" := by simp [bufAppend]
        simpa [List.dropWhile_cons, h0] using ih
      · have h0 : bufAppend "" c = c := by simp [bufAppend]
        simp only [List.foldl_cons, List.dropWhile_cons, h0]
        rw [foldl_bufAppend_of_ne c cs hc]
        simp [hc]

/-- Loop invariant of `readEventsGo` over one block followed by its blank
terminator line: the payloads are the flush of the buffer after folding the
block's contents. -/
theorem readEventsGo_block_term (lines : List String) (buf : String)
    (h : ∀ l ∈ lines, l ≠ "") :
    readEventsGo (lines ++ [""]) buf =
      (let b := List.foldl bufAppend buf (blockContents lines)
       if b = "" then [] else [b]) := by
  induction lines generalizing buf with
  | nil => simp [readEventsGo, blockContents]
  | cons line rest ih =>
      have hline : line ≠ "" := h line (List.mem_cons_self _ _)
      have hrest : ∀ l ∈ rest, l ≠ "" := fun l hl => h l (List.mem_cons_of_mem _ hl)
      by_cases hd : hasPrefixStr line "data:"
      · simp only [List.cons_append, readEventsGo, if_neg hline, if_pos hd,
          List.append_eq]
        rw [ih _ hrest]
        simp [blockContents, hd]
      · simp only [List.cons_append, readEventsGo, if_neg hline, if_neg hd,
          List.append_eq]
        rw [ih _ hrest]
        simp [blockContents, hd]

theorem head_dropWhile_ne (l : List String) (c : String) (cs : List String)
    (h : l.dropWhile (· = "") = c :: cs) : c ≠ "" := by
  induction l with
  | nil => simp [List.dropWhile] at h
  | cons a l ih =>
      rw [List.dropWhile_cons] at h
      by_cases ha : a = ""
      · rw [if_pos (by simpa using ha)] at h
        exact ih h
      · rw [if_neg (by simpa using ha)] at h
        obtain ⟨rfl, -⟩ := List.cons.inj h
        exact ha

/-- C4 (amended): for a single block (no blank line among `lines`) followed
by its terminator, the Event Reader emits one payload equal to the `data:`
lines' contents joined by a newline separator after discarding leading empty
contents — a prefixed line whose content is empty contributes no separator
while the buffer is still empty; a block with no prefixed lines, or all of
whose prefixed lines have empty content, produces no payload. -/
theorem c4_block_payload (lines : List String) (h : ∀ l ∈ lines, l ≠ "") :
    ReadEvents (lines ++ [""]) =
      (match (blockContents lines).dropWhile (· = "") with
       | [] => []
       | c :: cs => [joinNL (c :: cs)]) := by
  unfold ReadEvents
  rw [readEventsGo_block_term lines "" h]
  have hb := foldl_bufAppend_empty (blockContents lines)
  cases hdw : (blockContents lines).dropWhile (· = "") with
  | nil =>
      rw [hdw] at hb
      simp [hb]
  | cons c cs =>
      rw [hdw] at hb
      have hc : c ≠ "" := head_dropWhile_ne _ _ _ hdw
      have hne := append_concatWithNL_ne_empty c cs hc
      simp [hb, hne, joinNL_cons_eq]

/-- C4 counterexample: the block `data:` (empty content), `data: foo` has
two prefixed lines, yet the single emitted payload is `"foo"`, not the
newline-join `"\nfoo"` of the lines' contents — an empty content appended to
the still-empty buffer contributes no separator. -/
theorem c4_counterexample :
    ReadEvents ["data:", "data: foo", ""] = ["foo"] ∧
    joinNL (blockContents ["data:", "data: foo"]) = "\nfoo" ∧
    ("foo" : String) ≠ "\nfoo" :=
  ⟨rfl, rfl, by decide⟩

/-- Witness for `c4_block_payload`: the concrete block of the specification,
`data: foo` then `data: bar` then a blank line, emits exactly
`"foo\nbar"`. -/
theorem c4_block_payload_witness :
    (∀ l ∈ (["data: foo", "data: bar"] : List String), l ≠ "") ∧
    ReadEvents (["data: foo", "data: bar"] ++ [""]) = ["foo\nbar"] := by
  refine ⟨by decide, ?_⟩
  rw [c4_block_payload ["data: foo", "data: bar"] (by decide)]
  rfl

/-! ### Accumulator properties (claims C3 and C1) -/

theorem mem_oaAppendArgs_absent (l : List OACall) (i d : String) (x : String)
    (h : ∀ c ∈ l, c.id ≠ x) : ∀ c ∈ oaAppendArgs l i d, c.id ≠ x := by
  intro c hc
  obtain ⟨c0, hc0, rfl⟩ := List.mem_map.mp hc
  by_cases hi : c0.id = i
  · simpa [hi] using h c0 hc0
  · simpa [hi] using h c0 hc0

theorem mem_oaInsert_absent (l : List OACall) (c0 : OACall) (x : String)
    (h : ∀ c ∈ l, c.id ≠ x) (h0 : c0.id ≠ x) : ∀ c ∈ oaInsert l c0, c.id ≠ x := by
  intro c hc
  unfold oaInsert at hc
  by_cases hany : l.any (fun d => d.id = c0.id)
  · rw [if_pos hany] at hc
    obtain ⟨d, hd, rfl⟩ := List.mem_map.mp hc
    by_cases hdc : d.id = c0.id
    · simpa [hdc] using h0
    · simpa [hdc] using h d hd
  · rw [if_neg hany] at hc
    rcases List.mem_append.mp hc with hc | hc
    · exact h c hc
    · rcases List.mem_singleton.mp hc with rfl
      exact h0

theorem foldl_oaStep_absent (es : List OAEvent) (acc : List OACall) (x : String)
    (hes : ∀ e ∈ es, ¬ IsAddFor x e) (hacc : ∀ c ∈ acc, c.id ≠ x) :
    ∀ c ∈ List.foldl oaStep acc es, c.id ≠ x := by
  induction es generalizing acc with
  | nil => simpa using hacc
  | cons e es ih =>
      have he : ¬ IsAddFor x e := hes e (List.mem_cons_self _ _)
      have hes' : ∀ e' ∈ es, ¬ IsAddFor x e' := fun e' h' => hes e' (List.mem_cons_of_mem _ h')
      rw [List.foldl_cons]
      apply ih _ hes'
      cases e with
      | itemAdded t i ci n a =>
          simp only [oaStep]
          by_cases hg : t = "function_call" ∧ i ≠ ""
          · rw [if_pos hg]
            have hi : i ≠ x := by
              intro hix
              exact he ⟨hg.1, hix⟩
            exact mem_oaInsert_absent acc ⟨i, ci, n, a⟩ x hacc hi
          · rw [if_neg hg]
            exact hacc
      | argsDelta i d => exact mem_oaAppendArgs_absent acc i d x hacc
      | created r => exact hacc
      | textDelta s => exact hacc
      | other => exact hacc

theorem oaFind_map_ne (l : List OACall) (f : OACall → OACall) (x : String)
    (h1 : ∀ d, d.id = x → f d = d) (h2 : ∀ d, d.id ≠ x → (f d).id ≠ x) :
    oaFind x (l.map f) = oaFind x l := by
  induction l with
  | nil => rfl
  | cons d l ih =>
      by_cases hd : d.id = x
      · unfold oaFind
        rw [List.map_cons, List.find?_cons_of_pos _ (by simpa [h1 d hd] using hd),
          List.find?_cons_of_pos _ (by simpa using hd), h1 d hd]
      · unfold oaFind
        rw [List.map_cons, List.find?_cons_of_neg _ (by simpa using h2 d hd),
          List.find?_cons_of_neg _ (by simpa using hd)]
        exact ih

theorem oaFind_appendArgs_self (l : List OACall) (x d : String) :
    oaFind x (oaAppendArgs l x d) =
      (oaFind x l).map (fun c => { c with args := c.args ++ d }) := by
  induction l with
  | nil => rfl
  | cons c l ih =>
      by_cases hc : c.id = x
      · unfold oaFind oaAppendArgs
        rw [List.map_cons, if_pos hc, List.find?_cons_of_pos _ (by simpa using hc),
          List.find?_cons_of_pos _ (by simpa using hc)]
        rfl
      · unfold oaFind oaAppendArgs
        rw [List.map_cons, if_neg hc, List.find?_cons_of_neg _ (by simpa using hc),
          List.find?_cons_of_neg _ (by simpa using hc)]
        exact ih

theorem oaFind_appendArgs_ne (l : List OACall) (x i d : String) (h : i ≠ x) :
    oaFind x (oaAppendArgs l i d) = oaFind x l := by
  apply oaFind_map_ne
  · intro c hc
    have : c.id ≠ i := by
      rw [hc]
      exact fun he => h he.symm
    simp [this]
  · intro c hc
    by_cases hci : c.id = i
    · simpa [hci] using hc
    · simpa [hci] using hc

theorem oaFind_append_single_ne (l : List OACall) (c0 : OACall) (x : String)
    (h : c0.id ≠ x) : oaFind x (l ++ [c0]) = oaFind x l := by
  induction l with
  | nil =>
      unfold oaFind
      rw [List.nil_append, List.find?_cons_of_neg _ (by simpa using h)]
  | cons d l ih =>
      by_cases hd : d.id = x
      · unfold oaFind
        rw [List.cons_append, List.find?_cons_of_pos _ (by simpa using hd),
          List.find?_cons_of_pos _ (by simpa using hd)]
      · unfold oaFind
        rw [List.cons_append, List.find?_cons_of_neg _ (by simpa using hd),
          List.find?_cons_of_neg _ (by simpa using hd)]
        exact ih

theorem oaFind_insert_ne (l : List OACall) (c0 : OACall) (x : String)
    (h : c0.id ≠ x) : oaFind x (oaInsert l c0) = oaFind x l := by
  unfold oaInsert
  by_cases hany : l.any (fun d => d.id = c0.id)
  · rw [if_pos hany]
    apply oaFind_map_ne
    · intro d hd
      have : d.id ≠ c0.id := by
        rw [hd]
        exact fun he => h he.symm
      simp [this]
    · intro d hd
      by_cases hdc : d.id = c0.id
      · simpa [hdc] using h
      · simpa [hdc] using hd
  · rw [if_neg hany]
    exact oaFind_append_single_ne l c0 x h

theorem oaFind_insert_self (l : List OACall) (c0 : OACall)
    (habs : ∀ c ∈ l, c.id ≠ c0.id) : oaFind c0.id (oaInsert l c0) = some c0 := by
  unfold oaInsert
  have hany : l.any (fun d => d.id = c0.id) = false := by
    rw [List.any_eq_false]
    intro d hd
    simpa using habs d hd
  rw [if_neg (by simp [hany])]
  induction l with
  | nil =>
      unfold oaFind
      rw [List.nil_append, List.find?_cons_of_pos _ (by simp)]
  | cons d l ih =>
      have hd : d.id ≠ c0.id := habs d (List.mem_cons_self _ _)
      unfold oaFind
      rw [List.cons_append, List.find?_cons_of_neg _ (by simpa using hd)]
      exact ih (fun c hc => habs c (List.mem_cons_of_mem _ hc))
        (by
          rw [List.any_eq_false]
          intro c hc
          simpa using habs c (List.mem_cons_of_mem _ hc))

/-- Main accumulator invariant: if the call for item id `x` is present with
value `c` and no further `function_call` item is added under `x`, then after
processing the remaining events the call's arguments are `c.args` extended,
in arrival order, by exactly the fragments carrying `x`. -/
theorem oaFind_foldl_frags (post : List OAEvent) (acc : List OACall) (x : String)
    (c : OACall) (hfind : oaFind x acc = some c)
    (hpost : ∀ e ∈ post, ¬ IsAddFor x e) :
    oaFind x (List.foldl oaStep acc post) =
      some { c with args := c.args ++ fragsConcat x post } := by
  induction post generalizing acc c with
  | nil =>
      simpa [fragsConcat, concatAll, String.append_empty] using hfind
  | cons e post ih =>
      have he : ¬ IsAddFor x e := hpost e (List.mem_cons_self _ _)
      have hpost' : ∀ e' ∈ post, ¬ IsAddFor x e' :=
        fun e' h' => hpost e' (List.mem_cons_of_mem _ h')
      rw [List.foldl_cons]
      cases e with
      | argsDelta i d =>
          by_cases hi : i = x
          · subst hi
            have hstep : oaFind i (oaStep acc (OAEvent.argsDelta i d)) =
                some { c with args := c.args ++ d } := by
              simp only [oaStep]
              rw [oaFind_appendArgs_self, hfind]
              rfl
            rw [ih _ _ hstep hpost']
            have : fragsConcat i (OAEvent.argsDelta i d :: post) =
                d ++ fragsConcat i post := by
              simp [fragsConcat, fragFor, concatAll]
            rw [this]
            simp [String.append_assoc]
          · have hstep : oaFind x (oaStep acc (OAEvent.argsDelta i d)) = some c := by
              simp only [oaStep]
              rw [oaFind_appendArgs_ne _ _ _ _ hi]
              exact hfind
            rw [ih _ _ hstep hpost']
            have : fragsConcat x (OAEvent.argsDelta i d :: post) = fragsConcat x post := by
              simp [fragsConcat, fragFor, hi]
            rw [this]
      | itemAdded t i ci n a =>
          have hstep : oaFind x (oaStep acc (OAEvent.itemAdded t i ci n a)) = some c := by
            simp only [oaStep]
            by_cases hg : t = "function_call" ∧ i ≠ ""
            · rw [if_pos hg]
              have hi : i ≠ x := fun hix => he ⟨hg.1, hix⟩
              rw [oaFind_insert_ne _ _ _ hi]
              exact hfind
            · rw [if_neg hg]
              exact hfind
          rw [ih _ _ hstep hpost']
          have : fragsConcat x (OAEvent.itemAdded t i ci n a :: post) =
              fragsConcat x post := by
            simp [fragsConcat, fragFor]
          rw [this]
      | created r =>
          rw [ih _ _ (by simpa [oaStep] using hfind) hpost']
          have : fragsConcat x (OAEvent.created r :: post) = fragsConcat x post := by
            simp [fragsConcat, fragFor]
          rw [this]
      | textDelta s =>
          rw [ih _ _ (by simpa [oaStep] using hfind) hpost']
          have : fragsConcat x (OAEvent.textDelta s :: post) = fragsConcat x post := by
            simp [fragsConcat, fragFor]
          rw [this]
      | other =>
          rw [ih _ _ (by simpa [oaStep] using hfind) hpost']
          have : fragsConcat x (OAEvent.other :: post) = fragsConcat x post := by
            simp [fragsConcat, fragFor]
          rw [this]

/-- OpenAI accumulator: in any stream that starts the call `x` exactly once
(with empty initial arguments, as the wire format sends) and carries
`x`-fragments only after that start, the finalized argument string of `x` is
the concatenation, in arrival order, of exactly those fragments carrying `x`
— fragments are appended verbatim, never reordered, and never applied to a
call other than the one their item id names, however many calls accumulate
concurrently. -/
theorem oa_fragment_accumulation (pre post : List OAEvent) (x ci n : String)
    (hx : x ≠ "")
    (hpre : ∀ e ∈ pre, ¬ IsAddFor x e)
    (hpost : ∀ e ∈ post, ¬ IsAddFor x e)
    (hprefrag : ∀ e ∈ pre, fragFor x e = none) :
    oaFind x (oaCollect (pre ++ OAEvent.itemAdded "function_call" x ci n "" :: post)) =
      some ⟨x, ci, n,
        fragsConcat x (pre ++ OAEvent.itemAdded "function_call" x ci n "" :: post)⟩ := by
  have hfrags : fragsConcat x (pre ++ OAEvent.itemAdded "function_call" x ci n "" :: post) =
      fragsConcat x post := by
    unfold fragsConcat
    rw [List.filterMap_append, List.filterMap_eq_nil_iff.mpr hprefrag]
    simp [fragFor]
  rw [hfrags]
  unfold oaCollect
  rw [List.foldl_append, List.foldl_cons]
  have habs : ∀ c ∈ List.foldl oaStep [] pre, c.id ≠ x :=
    foldl_oaStep_absent pre [] x hpre (by simp)
  have hstep : oaFind x (oaStep (List.foldl oaStep [] pre)
      (OAEvent.itemAdded "function_call" x ci n "")) = some ⟨x, ci, n, ""⟩ := by
    have hunf : oaStep (List.foldl oaStep [] pre)
        (OAEvent.itemAdded "function_call" x ci n "") =
        oaInsert (List.foldl oaStep [] pre) ⟨x, ci, n, ""⟩ := by
      simp [oaStep, hx]
    rw [hunf]
    exact oaFind_insert_self _ ⟨x, ci, n, ""⟩ habs
  rw [oaFind_foldl_frags post _ x ⟨x, ci, n, ""⟩ hstep hpost]
  simp [String.empty_append]

theorem anFind_map_insert (uses : List ToolUse) (u : ToolUse)
    (hex : ∃ q ∈ uses, q.id = u.id) :
    (uses.map (fun d => if d.id = u.id then u else d)).find?
      (fun d => d.id = u.id) = some u := by
  induction uses with
  | nil =>
      obtain ⟨q, hq, -⟩ := hex
      simp at hq
  | cons r uses ih =>
      by_cases hr : r.id = u.id
      · rw [List.map_cons, if_pos hr, List.find?_cons_of_pos _ (by simp)]
      · rw [List.map_cons, if_neg hr, List.find?_cons_of_neg _ (by simpa using hr)]
        apply ih
        obtain ⟨q, hq, hqk⟩ := hex
        rcases List.mem_cons.mp hq with rfl | hq'
        · exact absurd hqk hr
        · exact ⟨q, hq', hqk⟩

theorem anFind_append_single (uses : List ToolUse) (u : ToolUse)
    (habs : ∀ q ∈ uses, q.id ≠ u.id) :
    (uses ++ [u]).find? (fun d => d.id = u.id) = some u := by
  induction uses with
  | nil => rw [List.nil_append, List.find?_cons_of_pos _ (by simp)]
  | cons r uses ih =>
      rw [List.cons_append,
        List.find?_cons_of_neg _ (by simpa using habs r (List.mem_cons_self _ _))]
      exact ih (fun q hq => habs q (List.mem_cons_of_mem _ hq))

theorem anFind_insert_self (uses : List ToolUse) (u : ToolUse) :
    anFind u.id (anInsert uses u) = some u := by
  unfold anInsert anFind
  by_cases hany : uses.any (fun d => d.id = u.id)
  · rw [if_pos hany]
    obtain ⟨q, hq, hqk⟩ := List.any_eq_true.mp hany
    exact anFind_map_insert uses u ⟨q, hq, by simpa using hqk⟩
  · rw [if_neg hany]
    exact anFind_append_single uses u (fun q hq hqk =>
      hany (List.any_eq_true.mpr ⟨q, hq, by simpa using hqk⟩))

theorem anFind_appendInput_self (uses : List ToolUse) (x p : String) :
    anFind x (anAppendInput uses x p) =
      (anFind x uses).map (fun u => { u with input := u.input ++ p }) := by
  induction uses with
  | nil => rfl
  | cons r uses ih =>
      by_cases hr : r.id = x
      · unfold anFind anAppendInput
        rw [List.map_cons, if_pos hr, List.find?_cons_of_pos _ (by simpa using hr),
          List.find?_cons_of_pos _ (by simpa using hr)]
        rfl
      · unfold anFind anAppendInput
        rw [List.map_cons, if_neg hr, List.find?_cons_of_neg _ (by simpa using hr),
          List.find?_cons_of_neg _ (by simpa using hr)]
        exact ih

/-- Main Anthropic accumulator invariant: while block `x` is the active
tool id and no further `tool_use` block starts, every input fragment —
whatever block the wire attributes it to — is appended to `x`'s use. -/
theorem anFind_foldl_pieces (post : List AnEvent) (uses : List ToolUse)
    (x : String) (u : ToolUse) (hx : x ≠ "") (hfind : anFind x uses = some u)
    (hpost : ∀ e ∈ post, ¬ IsToolStart e) :
    anFind x ((post.foldl anStep ⟨uses, x⟩).uses) =
      some { u with input := u.input ++ concatAll (post.filterMap anPiece) } := by
  induction post generalizing uses u with
  | nil =>
      simpa [concatAll, String.append_empty] using hfind
  | cons e post ih =>
      have he : ¬ IsToolStart e := hpost e (List.mem_cons_self _ _)
      have hpost' : ∀ e' ∈ post, ¬ IsToolStart e' :=
        fun e' h' => hpost e' (List.mem_cons_of_mem _ h')
      rw [List.foldl_cons]
      cases e with
      | blockStart t i nn =>
          have he' : ¬ t = "tool_use" := he
          have hstep : anStep ⟨uses, x⟩ (AnEvent.blockStart t i nn) = ⟨uses, x⟩ := by
            simp [anStep, he']
          rw [hstep, ih uses u hfind hpost']
          have hfm : (AnEvent.blockStart t i nn :: post).filterMap anPiece =
              post.filterMap anPiece := by
            simp [anPiece]
          rw [hfm]
      | inputDelta f p =>
          have hstep : anStep ⟨uses, x⟩ (AnEvent.inputDelta f p) =
              ⟨anAppendInput uses x p, x⟩ := by
            simp [anStep, hx]
          rw [hstep]
          have hfind' : anFind x (anAppendInput uses x p) =
              some { u with input := u.input ++ p } := by
            rw [anFind_appendInput_self, hfind]
            rfl
          rw [ih _ _ hfind' hpost']
          have hfm : concatAll ((AnEvent.inputDelta f p :: post).filterMap anPiece) =
              p ++ concatAll (post.filterMap anPiece) := by
            simp [anPiece, concatAll]
          rw [hfm]
          simp [String.append_assoc]
      | textDelta s =>
          have hstep : anStep ⟨uses, x⟩ (AnEvent.textDelta s) = ⟨uses, x⟩ := rfl
          rw [hstep, ih uses u hfind hpost']
          have hfm : (AnEvent.textDelta s :: post).filterMap anPiece =
              post.filterMap anPiece := by
            simp [anPiece]
          rw [hfm]
      | other =>
          have hstep : anStep ⟨uses, x⟩ AnEvent.other = ⟨uses, x⟩ := rfl
          rw [hstep, ih uses u hfind hpost']
          have hfm : (AnEvent.other :: post).filterMap anPiece =
              post.filterMap anPiece := by
            simp [anPiece]
          rw [hfm]

/-- Anthropic accumulator: a `tool_use` block start makes its id active, and
until another `tool_use` block starts, every arriving input fragment is
appended to that block's use — regardless of which block the fragment's wire
attribution names. -/
theorem an_fragment_accumulation (pre post : List AnEvent) (x n : String)
    (hx : x ≠ "") (hpost : ∀ e ∈ post, ¬ IsToolStart e) :
    anFind x (anCollect (pre ++ AnEvent.blockStart "tool_use" x n :: post)) =
      some ⟨x, n, concatAll (post.filterMap anPiece)⟩ := by
  unfold anCollect
  rw [List.foldl_append, List.foldl_cons]
  have hstep : anStep (pre.foldl anStep ⟨[], ""⟩) (AnEvent.blockStart "tool_use" x n) =
      ⟨anInsert (pre.foldl anStep ⟨[], ""⟩).uses ⟨x, n, ""⟩, x⟩ := by
    simp [anStep]
  rw [hstep]
  have hfind : anFind x (anInsert (pre.foldl anStep ⟨[], ""⟩).uses ⟨x, n, ""⟩) =
      some ⟨x, n, ""⟩ :=
    anFind_insert_self (pre.foldl anStep ⟨[], ""⟩).uses ⟨x, n, ""⟩
  rw [anFind_foldl_pieces post _ x ⟨x, n, ""⟩ hx hfind hpost]
  simp [String.empty_append]

/-- C3 (amended): in the OpenAI accumulator, each uniquely started call's
finalized argument string is the concatenation, in arrival order, of exactly
the argument fragments carrying its item id — fragments are appended
verbatim and demultiplexed strictly by identifier, even with several calls
accumulating concurrently.  The Anthropic accumulator does not demultiplex
by the fragment's identifier: it drops the fragment's wire attribution and
appends every fragment to the most recently started `tool_use` block, so
per-call reassembly holds there only while a call's block is the latest one
started (the wire format's block discipline). -/
theorem c3_fragment_accumulation :
    (∀ (pre post : List OAEvent) (x ci n : String), x ≠ "" →
      (∀ e ∈ pre, ¬ IsAddFor x e) → (∀ e ∈ post, ¬ IsAddFor x e) →
      (∀ e ∈ pre, fragFor x e = none) →
      oaFind x (oaCollect (pre ++ OAEvent.itemAdded "function_call" x ci n "" :: post)) =
        some ⟨x, ci, n,
          fragsConcat x (pre ++ OAEvent.itemAdded "function_call" x ci n "" :: post)⟩) ∧
    (∀ (pre post : List AnEvent) (x n : String), x ≠ "" →
      (∀ e ∈ post, ¬ IsToolStart e) →
      anFind x (anCollect (pre ++ AnEvent.blockStart "tool_use" x n :: post)) =
        some ⟨x, n, concatAll (post.filterMap anPiece)⟩) :=
  ⟨oa_fragment_accumulation, an_fragment_accumulation⟩

/-- C3 counterexample: in the Anthropic accumulator, after block `A` opens
and block `B` opens, a fragment whose wire attribution names `A` is appended
to `B` — so `A`'s finalized input is `"x"`, not the `"xy"` concatenation of
the fragments carrying `A`'s identifier, and `B` absorbed a fragment it does
not name. -/
theorem c3_counterexample :
    anCollect [AnEvent.blockStart "tool_use" "A" "fs",
               AnEvent.inputDelta "A" "x",
               AnEvent.blockStart "tool_use" "B" "web",
               AnEvent.inputDelta "A" "y"] =
      [⟨"A", "fs", "x"⟩, ⟨"B", "web", "y"⟩] ∧
    concatAll (([AnEvent.blockStart "tool_use" "A" "fs",
               AnEvent.inputDelta "A" "x",
               AnEvent.blockStart "tool_use" "B" "web",
               AnEvent.inputDelta "A" "y"]).filterMap (anPieceFor "A")) = "xy" ∧
    concatAll (([AnEvent.blockStart "tool_use" "A" "fs",
               AnEvent.inputDelta "A" "x",
               AnEvent.blockStart "tool_use" "B" "web",
               AnEvent.inputDelta "A" "y"]).filterMap (anPieceFor "B")) = "" ∧
    ("x" : String) ≠ "xy" ∧ ("y" : String) ≠ "" := by
  refine ⟨by decide, by decide, by decide, by decide, by decide⟩

/-- Witness for `c3_fragment_accumulation`: the OpenAI half on two
concurrently accumulating calls with interleaved fragments, and the
Anthropic half on a block whose fragments arrive while it is the latest
started block. -/
theorem c3_fragment_accumulation_witness :
    oaFind "item1" (oaCollect
      ([OAEvent.textDelta "hi"] ++
        OAEvent.itemAdded "function_call" "item1" "call_1" "fs" "" ::
        [OAEvent.itemAdded "function_call" "item2" "call_2" "search" "",
         OAEvent.argsDelta "item1" "\x7b\"op\":\"list",
         OAEvent.argsDelta "item2" "\x7b\"q\":\"cats\"\x7d",
         OAEvent.argsDelta "item1" "\",\"path\":\"/tmp\"\x7d"])) =
      some ⟨"item1", "call_1", "fs", "\x7b\"op\":\"list\",\"path\":\"/tmp\"\x7d"⟩ ∧
    anFind "blk1" (anCollect
      ([AnEvent.textDelta "hi"] ++
        AnEvent.blockStart "tool_use" "blk1" "fs" ::
        [AnEvent.inputDelta "blk1" "\x7b\"op\":\"list",
         AnEvent.inputDelta "blk1" "\",\"path\":\"/tmp\"\x7d"])) =
      some ⟨"blk1", "fs", "\x7b\"op\":\"list\",\"path\":\"/tmp\"\x7d"⟩ := by
  constructor
  · rw [c3_fragment_accumulation.1 [OAEvent.textDelta "hi"]
      [OAEvent.itemAdded "function_call" "item2" "call_2" "search" "",
       OAEvent.argsDelta "item1" "\x7b\"op\":\"list",
       OAEvent.argsDelta "item2" "\x7b\"q\":\"cats\"\x7d",
       OAEvent.argsDelta "item1" "\",\"path\":\"/tmp\"\x7d"]
      "item1" "call_1" "fs" (by decide) (by decide) (by decide) (by decide)]
    decide
  · rw [c3_fragment_accumulation.2 [AnEvent.textDelta "hi"]
      [AnEvent.inputDelta "blk1" "\x7b\"op\":\"list",
       AnEvent.inputDelta "blk1" "\",\"path\":\"/tmp\"\x7d"]
      "blk1" "fs" (by decide) (by decide)]
    decide

/-- C1 (amended): over any stream, executing the finalized calls in the
order the adapter returned them (an unspecified Go map-iteration permutation
of the order the calls were first started) and skipping registry-unknown
names yields a sequence that is a subsequence of the returned order and a
permutation of the registry-known calls in start order. -/
theorem c1_execution_order (events : List OAEvent) (reg : Registry)
    (iter : List OACall) (hperm : iter.Perm (oaCollect events)) :
    (executedSeq reg iter).Sublist iter ∧
    (executedSeq reg iter).Perm (executedSeq reg (oaCollect events)) :=
  ⟨List.filter_sublist _, hperm.filter _⟩

/-- C1 counterexample: with two calls started in the order `a`, `b`, the Go
map holding the pending calls may be iterated in the order `b`, `a` (map
iteration order is unspecified); both names are in the registry, so the
executed sequence is `b`, `a` — not the start order, and not a subsequence
of the start-order sequence. -/
theorem c1_counterexample :
    ([⟨"b", "cb", "t2", ""⟩, ⟨"a", "ca", "t1", ""⟩] : List OACall).Perm
      (oaCollect [OAEvent.itemAdded "function_call" "a" "ca" "t1" "",
                  OAEvent.itemAdded "function_call" "b" "cb" "t2" ""]) ∧
    executedSeq regT12 [⟨"b", "cb", "t2", ""⟩, ⟨"a", "ca", "t1", ""⟩] ≠
      executedSeq regT12 (oaCollect [OAEvent.itemAdded "function_call" "a" "ca" "t1" "",
                  OAEvent.itemAdded "function_call" "b" "cb" "t2" ""]) ∧
    ¬ (executedSeq regT12 [⟨"b", "cb", "t2", ""⟩, ⟨"a", "ca", "t1", ""⟩]).Sublist
      (oaCollect [OAEvent.itemAdded "function_call" "a" "ca" "t1" "",
                  OAEvent.itemAdded "function_call" "b" "cb" "t2" ""]) := by
  refine ⟨?_, by decide, by decide⟩
  have h : oaCollect [OAEvent.itemAdded "function_call" "a" "ca" "t1" "",
      OAEvent.itemAdded "function_call" "b" "cb" "t2" ""] =
      [⟨"a", "ca", "t1", ""⟩, ⟨"b", "cb", "t2", ""⟩] := by decide
  rw [h]
  exact List.Perm.swap _ _ _

/-- Witness for `c1_execution_order` at a concrete permuted iteration
order. -/
theorem c1_execution_order_witness :
    (executedSeq regT12 [(⟨"b", "cb", "t2", ""⟩ : OACall), ⟨"a", "ca", "t1", ""⟩]).Sublist
      [(⟨"b", "cb", "t2", ""⟩ : OACall), ⟨"a", "ca", "t1", ""⟩] ∧
    (executedSeq regT12 [(⟨"b", "cb", "t2", ""⟩ : OACall), ⟨"a", "ca", "t1", ""⟩]).Perm
      (executedSeq regT12 (oaCollect [OAEvent.itemAdded "function_call" "a" "ca" "t1" "",
        OAEvent.itemAdded "function_call" "b" "cb" "t2" ""])) :=
  c1_execution_order
    [OAEvent.itemAdded "function_call" "a" "ca" "t1" "",
     OAEvent.itemAdded "function_call" "b" "cb" "t2" ""]
    regT12 [⟨"b", "cb", "t2", ""⟩, ⟨"a", "ca", "t1", ""⟩]
    (by
      have h : oaCollect [OAEvent.itemAdded "function_call" "a" "ca" "t1" "",
          OAEvent.itemAdded "function_call" "b" "cb" "t2" ""] =
          [⟨"a", "ca", "t1", ""⟩, ⟨"b", "cb", "t2", ""⟩] := by decide
      rw [h]
      exact List.Perm.swap _ _ _)

/-! ### Orchestration loop properties (claims C2 and C5) -/

theorem oa_loop_executed (reg : Registry) (r1 r2 : List OACall) :
    (openAIStreamLoopM reg r1 r2).executed =
      (if r1.isEmpty then [] else executedSeq reg r1) := by
  unfold openAIStreamLoopM
  by_cases h1 : r1.isEmpty
  · simp [h1]
  · simp only [h1, Bool.false_eq_true, if_false]
    split <;> rfl

theorem oa_loop_continuation (reg : Registry) (r1 r2 : List OACall) :
    (openAIStreamLoopM reg r1 r2).continuationIds =
      (executedSeq reg r1).map (fun c => c.callId) := by
  unfold openAIStreamLoopM
  by_cases h1 : r1.isEmpty
  · have : r1 = [] := List.isEmpty_iff.mp h1
    subst this
    simp [executedSeq]
  · simp only [h1, Bool.false_eq_true, if_false]
    split <;> rfl

theorem gem_loop_executed (reg : Registry) (r1 r2 : List GemCall) :
    (geminiStreamLoopM reg r1 r2).executed =
      (if r1.isEmpty then [] else gemExecutedSeq reg r1) := by
  unfold geminiStreamLoopM
  by_cases h1 : r1.isEmpty
  · simp [h1]
  · simp only [h1, Bool.false_eq_true, if_false]
    split <;> rfl

theorem gem_loop_continuation (reg : Registry) (r1 r2 : List GemCall) :
    (geminiStreamLoopM reg r1 r2).continuationNames =
      (gemExecutedSeq reg r1).map (fun c => c.name) := by
  unfold geminiStreamLoopM
  by_cases h1 : r1.isEmpty
  · have : r1 = [] := List.isEmpty_iff.mp h1
    subst this
    simp [gemExecutedSeq]
  · simp only [h1, Bool.false_eq_true, if_false]
    split <;> rfl

/-- C2: whatever tool calls round 1 finalizes (none, one, or many, with
known or unknown names), the provider is contacted at most twice; the trace
does not depend on the calls the round-2 stream requests (the loop binds and
drops them), and every executed call comes from round 1 — for both the
OpenAI and the Gemini loop. -/
theorem c2_bounded_rounds (reg : Registry) (r1 r2 r2' : List OACall)
    (g1 g2 g2' : List GemCall) :
    (openAIStreamLoopM reg r1 r2).contacts ≤ 2 ∧
    openAIStreamLoopM reg r1 r2 = openAIStreamLoopM reg r1 r2' ∧
    (∀ c ∈ (openAIStreamLoopM reg r1 r2).executed, c ∈ r1) ∧
    (geminiStreamLoopM reg g1 g2).contacts ≤ 2 ∧
    geminiStreamLoopM reg g1 g2 = geminiStreamLoopM reg g1 g2' ∧
    (∀ c ∈ (geminiStreamLoopM reg g1 g2).executed, c ∈ g1) := by
  refine ⟨?_, rfl, ?_, ?_, rfl, ?_⟩
  · unfold openAIStreamLoopM
    by_cases h1 : r1.isEmpty
    · simp [h1]
    · simp only [h1, Bool.false_eq_true, if_false]
      split <;> simp
  · intro c hc
    rw [oa_loop_executed] at hc
    by_cases h1 : r1.isEmpty
    · rw [if_pos h1] at hc
      simp at hc
    · rw [if_neg h1] at hc
      unfold executedSeq at hc
      exact List.mem_of_mem_filter hc
  · unfold geminiStreamLoopM
    by_cases h1 : g1.isEmpty
    · simp [h1]
    · simp only [h1, Bool.false_eq_true, if_false]
      split <;> simp
  · intro c hc
    rw [gem_loop_executed] at hc
    by_cases h1 : g1.isEmpty
    · rw [if_pos h1] at hc
      simp at hc
    · rw [if_neg h1] at hc
      unfold gemExecutedSeq at hc
      exact List.mem_of_mem_filter hc

/-- Witness for `c2_bounded_rounds`: a concrete round-1 call to a registered
tool — the loop contacts the provider at most twice and the executed call is
the round-1 call. -/
theorem c2_bounded_rounds_witness :
    (openAIStreamLoopM regT12 [⟨"i1", "c1", "t1", ""⟩] []).contacts ≤ 2 ∧
    (⟨"i1", "c1", "t1", ""⟩ : OACall) ∈ ([⟨"i1", "c1", "t1", ""⟩] : List OACall) :=
  ⟨(c2_bounded_rounds regT12 [⟨"i1", "c1", "t1", ""⟩] [] [] [] [] []).1,
   (c2_bounded_rounds regT12 [⟨"i1", "c1", "t1", ""⟩] [] [] [] [] []).2.2.1
     ⟨"i1", "c1", "t1", ""⟩ (by decide)⟩

/-- C5: a finalized call whose name is absent from the registry is neither
executed nor represented in the continuation turn (no error entry is built
for it); the continuation entries are exactly one per registry-known call;
and when every finalized call names an absent tool — or no calls were
finalized — the provider is contacted exactly once (no second round trip),
for both the OpenAI and the Gemini loop. -/
theorem c5_unknown_tool_skip (reg : Registry) (r1 r2 : List OACall)
    (g1 g2 : List GemCall) :
    (∀ c, c ∈ (openAIStreamLoopM reg r1 r2).executed ↔
      (c ∈ r1 ∧ (lookupTool reg c.name).isSome = true)) ∧
    (openAIStreamLoopM reg r1 r2).continuationIds =
      (executedSeq reg r1).map (fun c => c.callId) ∧
    ((∀ c ∈ r1, (lookupTool reg c.name).isSome = false) →
      (openAIStreamLoopM reg r1 r2).contacts = 1) ∧
    (∀ c, c ∈ (geminiStreamLoopM reg g1 g2).executed ↔
      (c ∈ g1 ∧ (lookupTool reg c.name).isSome = true)) ∧
    (geminiStreamLoopM reg g1 g2).continuationNames =
      (gemExecutedSeq reg g1).map (fun c => c.name) ∧
    ((∀ c ∈ g1, (lookupTool reg c.name).isSome = false) →
      (geminiStreamLoopM reg g1 g2).contacts = 1) := by
  refine ⟨?_, oa_loop_continuation reg r1 r2, ?_, ?_, gem_loop_continuation reg g1 g2, ?_⟩
  · intro c
    rw [oa_loop_executed]
    by_cases h1 : r1.isEmpty
    · have : r1 = [] := List.isEmpty_iff.mp h1
      subst this
      simp
    · rw [if_neg h1]
      unfold executedSeq
      exact List.mem_filter
  · intro hall
    have hknown : executedSeq reg r1 = [] := by
      unfold executedSeq
      rw [List.filter_eq_nil_iff]
      intro c hc
      simp [hall c hc]
    unfold openAIStreamLoopM
    by_cases h1 : r1.isEmpty
    · simp [h1]
    · simp only [h1, Bool.false_eq_true, if_false]
      simp [hknown]
  · intro c
    rw [gem_loop_executed]
    by_cases h1 : g1.isEmpty
    · have : g1 = [] := List.isEmpty_iff.mp h1
      subst this
      simp
    · rw [if_neg h1]
      unfold gemExecutedSeq
      exact List.mem_filter
  · intro hall
    have hknown : gemExecutedSeq reg g1 = [] := by
      unfold gemExecutedSeq
      rw [List.filter_eq_nil_iff]
      intro c hc
      simp [hall c hc]
    unfold geminiStreamLoopM
    by_cases h1 : g1.isEmpty
    · simp [h1]
    · simp only [h1, Bool.false_eq_true, if_false]
      simp [hknown]

/-- Witness for `c5_unknown_tool_skip`: a round-1 call naming a tool absent
from the registry is not executed, and being the only call, no second round
trip occurs. -/
theorem c5_unknown_tool_skip_witness :
    ¬ ((⟨"i9", "c9", "nope", ""⟩ : OACall) ∈
      (openAIStreamLoopM regT12 [⟨"i9", "c9", "nope", ""⟩] []).executed) ∧
    (openAIStreamLoopM regT12 [⟨"i9", "c9", "nope", ""⟩] []).contacts = 1 := by
  have h := c5_unknown_tool_skip regT12 [⟨"i9", "c9", "nope", ""⟩] [] [] []
  refine ⟨?_, h.2.2.1 (by decide)⟩
  intro hc
  exact absurd ((h.1 _).mp hc).2 (by decide)

/-! ### Registry and loader properties (claims C9 and C10) -/

/-- `Register` either succeeds with the map assignment — exactly when the
entry satisfies the registration invariant — or rejects the entry. -/
theorem register_cases (reg : Registry) (t : Tool) :
    (ValidTool t ∧ register reg t = .ok (insertTool reg t.name t)) ∨
    (¬ ValidTool t ∧ ∃ e, register reg t = .error e) := by
  unfold register
  split_ifs with h1 h2 h3 h4
  · exact Or.inr ⟨fun hv => hv.1 h1, _, rfl⟩
  · refine Or.inr ⟨fun hv => ?_, _, rfl⟩
    rcases hv.2.1 with h | h | h
    · exact h2.1 h
    · exact h2.2.1 h
    · exact h2.2.2 h
  · exact Or.inr ⟨fun hv => hv.2.2.1 h3.1 h3.2, _, rfl⟩
  · exact Or.inr ⟨fun hv => hv.2.2.2 h4.1 h4.2, _, rfl⟩
  · refine Or.inl ⟨⟨h1, ?_, fun ha hb => h3 ⟨ha, hb⟩, fun ha hb => h4 ⟨ha, hb⟩⟩, rfl⟩
    by_contra hcon
    push_neg at hcon
    exact h2 ⟨hcon.1, hcon.2.1, hcon.2.2⟩

theorem mem_insertTool (reg : Registry) (k : String) (t : Tool)
    (p : String × Tool) (hp : p ∈ insertTool reg k t) : p ∈ reg ∨ p = (k, t) := by
  unfold insertTool at hp
  by_cases hany : reg.any (fun q => q.1 = k)
  · rw [if_pos hany] at hp
    obtain ⟨q, hq, hqe⟩ := List.mem_map.mp hp
    by_cases hqk : q.1 = k
    · rw [if_pos hqk] at hqe
      exact Or.inr hqe.symm
    · rw [if_neg hqk] at hqe
      exact Or.inl (hqe ▸ hq)
  · rw [if_neg hany] at hp
    rcases List.mem_append.mp hp with hp | hp
    · exact Or.inl hp
    · exact Or.inr (List.mem_singleton.mp hp)

theorem find_map_insert (reg : Registry) (k : String) (t : Tool)
    (hex : ∃ q ∈ reg, q.1 = k) :
    (reg.map (fun p => if p.1 = k then (k, t) else p)).find? (fun p => p.1 = k) =
      some (k, t) := by
  induction reg with
  | nil =>
      obtain ⟨q, hq, -⟩ := hex
      simp at hq
  | cons r reg ih =>
      by_cases hrk : r.1 = k
      · rw [List.map_cons, if_pos hrk, List.find?_cons_of_pos _ (by simp)]
      · rw [List.map_cons, if_neg hrk, List.find?_cons_of_neg _ (by simpa using hrk)]
        apply ih
        obtain ⟨q, hq, hqk⟩ := hex
        rcases List.mem_cons.mp hq with rfl | hq'
        · exact absurd hqk hrk
        · exact ⟨q, hq', hqk⟩

theorem find_map_insert_ne (reg : Registry) (k : String) (t : Tool) (k' : String)
    (hk : k ≠ k') :
    (reg.map (fun p => if p.1 = k then (k, t) else p)).find? (fun p => p.1 = k') =
      reg.find? (fun p => p.1 = k') := by
  induction reg with
  | nil => rfl
  | cons r reg ih =>
      by_cases hrk' : r.1 = k'
      · have hrk : ¬ r.1 = k := fun he => hk (he.symm.trans hrk')
        rw [List.map_cons, if_neg hrk, List.find?_cons_of_pos _ (by simpa using hrk'),
          List.find?_cons_of_pos _ (by simpa using hrk')]
      · rw [List.map_cons]
        by_cases hrk : r.1 = k
        · rw [if_pos hrk, List.find?_cons_of_neg _ (by simpa using hk),
            List.find?_cons_of_neg _ (by simpa using hrk')]
          exact ih
        · rw [if_neg hrk, List.find?_cons_of_neg _ (by simpa using hrk'),
            List.find?_cons_of_neg _ (by simpa using hrk')]
          exact ih

theorem find_append_single (reg : Registry) (k : String) (t : Tool)
    (habs : ∀ q ∈ reg, q.1 ≠ k) :
    (reg ++ [(k, t)]).find? (fun p => p.1 = k) = some (k, t) := by
  induction reg with
  | nil => rw [List.nil_append, List.find?_cons_of_pos _ (by simp)]
  | cons r reg ih =>
      rw [List.cons_append,
        List.find?_cons_of_neg _ (by simpa using habs r (List.mem_cons_self _ _))]
      exact ih (fun q hq => habs q (List.mem_cons_of_mem _ hq))

theorem find_append_single_ne (reg : Registry) (k : String) (t : Tool) (k' : String)
    (hk : k ≠ k') :
    (reg ++ [(k, t)]).find? (fun p => p.1 = k') = reg.find? (fun p => p.1 = k') := by
  induction reg with
  | nil =>
      rw [List.nil_append, List.find?_cons_of_neg _ (by simpa using hk)]
  | cons r reg ih =>
      by_cases hrk' : r.1 = k'
      · rw [List.cons_append, List.find?_cons_of_pos _ (by simpa using hrk'),
          List.find?_cons_of_pos _ (by simpa using hrk')]
      · rw [List.cons_append, List.find?_cons_of_neg _ (by simpa using hrk'),
          List.find?_cons_of_neg _ (by simpa using hrk')]
        exact ih

theorem lookup_insertTool_self (reg : Registry) (k : String) (t : Tool) :
    lookupTool (insertTool reg k t) k = some t := by
  unfold insertTool lookupTool
  by_cases hany : reg.any (fun q => q.1 = k)
  · rw [if_pos hany]
    obtain ⟨q, hq, hqk⟩ := List.any_eq_true.mp hany
    rw [find_map_insert reg k t ⟨q, hq, by simpa using hqk⟩]
    rfl
  · rw [if_neg hany]
    rw [find_append_single reg k t (fun q hq hqk =>
      hany (List.any_eq_true.mpr ⟨q, hq, by simpa using hqk⟩))]
    rfl

theorem lookup_insertTool_ne (reg : Registry) (k : String) (t : Tool) (k' : String)
    (hk : k ≠ k') : lookupTool (insertTool reg k t) k' = lookupTool reg k' := by
  unfold insertTool lookupTool
  by_cases hany : reg.any (fun q => q.1 = k)
  · rw [if_pos hany, find_map_insert_ne reg k t k' hk]
  · rw [if_neg hany, find_append_single_ne reg k t k' hk]

theorem lookup_insertTool_isSome (reg : Registry) (k : String) (t : Tool)
    (k' : String) (h : (lookupTool reg k').isSome = true) :
    (lookupTool (insertTool reg k t) k').isSome = true := by
  by_cases hk : k = k'
  · subst hk
    rw [lookup_insertTool_self]
    rfl
  · rw [lookup_insertTool_ne reg k t k' hk]
    exact h

/-- The step function of the loader fold. -/
theorem loadTools_step_invariant (reg : Registry) (t : Tool)
    (hreg : ∀ p ∈ reg, p.1 = p.2.name ∧ ValidTool p.2) :
    ∀ p ∈ (match register reg t with
           | .ok reg' => reg'
           | .error _ => reg), p.1 = p.2.name ∧ ValidTool p.2 := by
  rcases register_cases reg t with ⟨hv, hok⟩ | ⟨_, e, herr⟩
  · rw [hok]
    intro p hp
    rcases mem_insertTool reg t.name t p hp with hp | hp
    · exact hreg p hp
    · subst hp
      exact ⟨rfl, hv⟩
  · rw [herr]
    exact hreg

theorem loadTools_go_invariant (ts : List Tool) (reg : Registry)
    (hreg : ∀ p ∈ reg, p.1 = p.2.name ∧ ValidTool p.2) :
    ∀ p ∈ ts.foldl (fun reg t =>
        match register reg t with
        | .ok reg' => reg'
        | .error _ => reg) reg, p.1 = p.2.name ∧ ValidTool p.2 := by
  induction ts generalizing reg with
  | nil => simpa using hreg
  | cons t ts ih =>
      rw [List.foldl_cons]
      exact ih _ (loadTools_step_invariant reg t hreg)

theorem loadTools_go_isSome (ts : List Tool) (reg : Registry) (k : String)
    (h : (lookupTool reg k).isSome = true) :
    (lookupTool (ts.foldl (fun reg t =>
        match register reg t with
        | .ok reg' => reg'
        | .error _ => reg) reg) k).isSome = true := by
  induction ts generalizing reg with
  | nil => simpa using h
  | cons t ts ih =>
      rw [List.foldl_cons]
      apply ih
      rcases register_cases reg t with ⟨_, hok⟩ | ⟨_, e, herr⟩
      · rw [hok]
        exact lookup_insertTool_isSome reg t.name t k h
      · rw [herr]
        exact h

theorem loadTools_go_mem_isSome (ts : List Tool) (reg : Registry) :
    ∀ t ∈ ts, ValidTool t →
      (lookupTool (ts.foldl (fun reg t =>
          match register reg t with
          | .ok reg' => reg'
          | .error _ => reg) reg) t.name).isSome = true := by
  induction ts generalizing reg with
  | nil =>
      intro t ht
      simp at ht
  | cons u ts ih =>
      intro t ht hv
      rw [List.foldl_cons]
      rcases List.mem_cons.mp ht with rfl | ht'
      · apply loadTools_go_isSome
        rcases register_cases reg t with ⟨_, hok⟩ | ⟨hnv, _, _⟩
        · rw [hok, lookup_insertTool_self]
          rfl
        · exact absurd hv hnv
      · exact ih _ t ht' hv

/-- C9: every entry of a registry produced by loading a declaration list
satisfies the registration invariant — the map key is the tool's (non-empty)
name, the kind is in the allowed set, an http tool has a URL, an exec tool
has a command; an entry failing validation is skipped individually (the
loaded registry is exactly the one loaded from the valid entries alone), and
every valid entry is still loaded. -/
theorem c9_registry_invariant (ts : List Tool) :
    (∀ p ∈ loadTools ts, p.1 = p.2.name ∧ ValidTool p.2) ∧
    loadTools ts = loadTools (ts.filter (fun t => decide (ValidTool t))) ∧
    (∀ t ∈ ts, ValidTool t → (lookupTool (loadTools ts) t.name).isSome = true) := by
  refine ⟨loadTools_go_invariant ts [] (by simp), ?_, ?_⟩
  · unfold loadTools
    generalize [] = reg
    induction ts generalizing reg with
    | nil => rfl
    | cons t ts ih =>
        rcases register_cases reg t with ⟨hv, hok⟩ | ⟨hnv, e, herr⟩
        · rw [List.filter_cons_of_pos (by simpa using hv), List.foldl_cons,
            List.foldl_cons, hok]
          exact ih _
        · rw [List.filter_cons_of_neg (by simpa using hnv), List.foldl_cons, herr]
          exact ih _
  · intro t ht hv
    exact loadTools_go_mem_isSome ts [] t ht hv

/-- Witness for `c9_registry_invariant`: loading a list holding one valid
exec tool and one invalid http entry (no URL) still registers the valid
tool. -/
theorem c9_registry_invariant_witness :
    (lookupTool (loadTools [{ name := "t1", type := "exec", command := "cmd1" },
      { name := "bad", type := "http" }]) "t1").isSome = true :=
  (c9_registry_invariant [{ name := "t1", type := "exec", command := "cmd1" },
      { name := "bad", type := "http" }]).2.2
    { name := "t1", type := "exec", command := "cmd1" }
    (List.mem_cons_self _ _) (by decide)

/-- C10: after `LoadWithBuiltins`, the registry entry for `"fs"` is the
built-in filesystem tool with type `"builtin"`, whatever the user's plugin
list declared under that name, and `ExecuteTool "fs"` dispatches to the
built-in filesystem executor. -/
theorem c10_builtin_fs_overrides (userTools : List Tool) (o : Oracles)
    (input : Option JValue) :
    lookupTool (loadWithBuiltins userTools) "fs" =
      some { builtinFS with type := "builtin" } ∧
    executeTool o (loadWithBuiltins userTools) "fs" input =
      executeFS o.storage input := by
  have h1 : lookupTool (loadWithBuiltins userTools) "fs" =
      some { builtinFS with type := "builtin" } := by
    unfold loadWithBuiltins
    exact lookup_insertTool_self _ _ _
  refine ⟨h1, ?_⟩
  unfold executeTool
  rw [h1]
  rfl

/-! ### HTTP executor properties (claim C6) -/

theorem getHeader_build (env : String → String) (t : Tool)
    (params : List (String × JValue)) (k v : String) (hhd : t.headers = [(k, v)])
    (hck : canonicalHeaderKey k ≠ "Content-Type") :
    getHeader (buildHTTPRequest env t params).headers k = some (expandEnv env v) := by
  unfold buildHTTPRequest
  simp only [hhd]
  have h1 : List.foldl (fun hs kv => setHeader hs kv.1 (expandEnv env kv.2))
      ([] : List (String × String)) [(k, v)] =
      [(canonicalHeaderKey k, expandEnv env v)] := by
    simp [setHeader]
  rw [h1]
  have hct : canonicalHeaderKey "Content-Type" = "Content-Type" := rfl
  have hget : getHeader [(canonicalHeaderKey k, expandEnv env v)] "Content-Type" = none := by
    unfold getHeader
    rw [hct, List.find?_cons_of_neg _ (by simpa using hck)]
    rfl
  by_cases hm : defaultedMethod t.method = "POST" ∨ defaultedMethod t.method = "PUT"
  · rw [if_pos ⟨hm, by rw [hget]; rfl⟩]
    have hset : setHeader [(canonicalHeaderKey k, expandEnv env v)]
        "Content-Type" "application/json" =
        [(canonicalHeaderKey k, expandEnv env v), ("Content-Type", "application/json")] := by
      unfold setHeader
      rw [hct, if_neg (by simpa using hck)]
      rfl
    rw [hset]
    unfold getHeader
    rw [List.find?_cons_of_pos _ (by simp)]
    rfl
  · rw [if_neg (fun hc => hm hc.1)]
    unfold getHeader
    rw [List.find?_cons_of_pos _ (by simp)]
    rfl

/-- C6 (amended): for every HTTP tool execution, placeholder substitution
with the call's parsed arguments is applied to the URL and to the body
template (non-string values embedded via their JSON serialization, per
`paramString`); when no body template is declared and the arguments are
non-empty, the JSON-serialized arguments are sent as the body; a declared
header value is sent after environment-variable expansion only — header
values do not undergo placeholder substitution. -/
theorem c6_http_substitution (env : String → String) (t : Tool)
    (params : List (String × JValue)) :
    (buildHTTPRequest env t params).url = substituteTemplate t.url params ∧
    (buildHTTPRequest env t params).body =
      (if t.body ≠ "" then some (substituteTemplate t.body params)
       else if ¬ params.isEmpty then some (serializeJ (.obj params)) else none) ∧
    (∀ s, paramString (.str s) = s) ∧
    (∀ fs, paramString (.obj fs) = serializeJ (.obj fs)) ∧
    (∀ k v, t.headers = [(k, v)] → canonicalHeaderKey k ≠ "Content-Type" →
      getHeader (buildHTTPRequest env t params).headers k = some (expandEnv env v)) :=
  ⟨rfl, rfl, fun _ => rfl, fun _ => rfl,
   fun k v hhd hck => getHeader_build env t params k v hhd hck⟩

/-- C6 counterexample: a declared header value consisting of the placeholder
is sent verbatim — placeholder substitution, which would have produced the
argument value, is not applied to headers. -/
theorem c6_counterexample :
    getHeader (buildHTTPRequest (fun _ => "") toolHdr [("x", .str "y")]).headers
      "X-Arg" = some "\x7b\x7b.x\x7d\x7d" ∧
    substituteTemplate "\x7b\x7b.x\x7d\x7d" [("x", JValue.str "y")] = "y" ∧
    (some ("\x7b\x7b.x\x7d\x7d" : String)) ≠ some "y" :=
  ⟨rfl, rfl, by decide⟩

/-- Witness for `c6_http_substitution`: the specification's concrete
example — header template `Bearer $TOKEN` with TOKEN=abc123 yields header
value `Bearer abc123`, and body template with placeholder `query` and
argument `cats` yields body `\x7b"q":"cats"\x7d`. -/
theorem c6_http_substitution_witness :
    getHeader (buildHTTPRequest envTok toolAuth [("query", .str "cats")]).headers
      "Authorization" = some "Bearer abc123" ∧
    (buildHTTPRequest envTok toolAuth [("query", .str "cats")]).body =
      some "\x7b\"q\":\"cats\"\x7d" := by
  have h := c6_http_substitution envTok toolAuth [("query", .str "cats")]
  constructor
  · rw [h.2.2.2.2 "Authorization" "Bearer $TOKEN" rfl (by decide)]
    rfl
  · rw [h.2.1]
    rfl

/-! ### Subprocess executor properties (claim C7) -/

/-- C7 (amended): the effective timeout is the declared per-tool timeout,
defaulting to 30 seconds when the tool declares none; a command that does
not complete within the timeout yields exactly the distinct message
`"command timed out"`; a non-zero exit within the timeout yields the
captured standard error as the message when standard error is non-empty,
falling back to the process error text when it is empty; and an exec tool is
run by `Tool.Execute` with the effective timeout. -/
theorem c7_exec_timeout (o : Oracles) (t : Tool) (params : List (String × JValue))
    (timeoutMS : Nat) (po : ProcOutcome)
    (hpo : o.proc (substituteTemplate t.command params)
      (t.args.map (fun a => substituteTemplate a params)) timeoutMS = po) :
    effTimeoutMS t = (if t.timeoutMS = 0 then 30000 else t.timeoutMS) ∧
    (po.completedWithinTimeout = false →
      executeExecM o t params timeoutMS = ⟨false, none, "command timed out"⟩) ∧
    (∀ err, po.completedWithinTimeout = true → po.runError = some err →
      executeExecM o t params timeoutMS =
        ⟨false, none, if po.stderrStr = "" then err else po.stderrStr⟩) ∧
    (∀ input params', t.type = "exec" → paramsOf input = .ok params' →
      toolExecute o t input = executeExecM o t params' (effTimeoutMS t)) := by
  refine ⟨rfl, ?_, ?_, ?_⟩
  · intro hnc
    simp only [executeExecM]
    rw [hpo, hnc]
    rfl
  · intro err hc herr
    simp only [executeExecM]
    rw [hpo, hc, herr]
    rfl
  · intro input params' htype hparams
    simp only [toolExecute]
    rw [hparams, htype]
    rfl

/-- C7 counterexample: a non-zero exit within the timeout that wrote nothing
to standard error is reported with the process error text, not with the
(empty) captured standard error. -/
theorem c7_counterexample :
    executeExecM oraclesExitOne { name := "e", type := "exec", command := "cmd" }
      [] 30000 = ⟨false, none, "exit status 1"⟩ ∧
    (oraclesExitOne.proc "cmd" [] 30000).stderrStr = "" ∧
    ("exit status 1" : String) ≠ "" :=
  ⟨rfl, rfl, by decide⟩

/-- Witness for `c7_exec_timeout`: the specification's concrete example — an
exec tool with a 100 ms timeout whose command sleeps past it yields exactly
`ok = false` with `"command timed out"`; and a tool declaring no timeout
gets the 30-second default. -/
theorem c7_exec_timeout_witness :
    executeExecM oraclesTimeout execTool100 [] 100 =
      ⟨false, none, "command timed out"⟩ ∧
    effTimeoutMS { name := "e", type := "exec", command := "cmd" } = 30000 :=
  ⟨(c7_exec_timeout oraclesTimeout execTool100 [] 100 _ rfl).2.1 rfl,
   (c7_exec_timeout oraclesTimeout { name := "e", type := "exec", command := "cmd" }
     [] 30000 _ rfl).1⟩

/-! ### Built-in filesystem tool properties (claim C8) -/

/-- C8 (amended): every filesystem operation except `list` rejects an empty
required path with a validation error before touching storage (the result
does not depend on the storage oracle at all); `list` instead defaults an
empty path to `"."` and proceeds to storage; move and copy report their pair
validation message; and on any storage failure the underlying error message
is surfaced verbatim, untranslated, for every operation.  `FS` is a total
function: it always returns a result value. -/
theorem c8_fs_validation (st st' : Storage) (req : FSRequest) :
    (req.path = "" →
      req.op ∈ (["read", "write", "append", "delete", "mkdir", "rmdir", "stat"] :
        List String) →
      FS st req = errFS "path is required" ∧ FS st req = FS st' req) ∧
    (req.path = "" → (req.op = "move" ∨ req.op = "copy") →
      FS st req = errFS "path and dest are required" ∧ FS st req = FS st' req) ∧
    (req.op = "list" → req.path = "" → FS st req = listDirM st ".") ∧
    (∀ e, req.path ≠ "" →
      ((req.op = "read" → st.readFile req.path = .error e → FS st req = errFS e) ∧
       (req.op = "write" → st.writeFile req.path req.data = .error e →
         FS st req = errFS e) ∧
       (req.op = "append" → st.appendFile req.path req.data = .error e →
         FS st req = errFS e) ∧
       (req.op = "delete" → st.removeAll req.path = .error e → FS st req = errFS e) ∧
       (req.op = "mkdir" → st.mkdirAll req.path = .error e → FS st req = errFS e) ∧
       (req.op = "rmdir" → st.remove req.path = .error e → FS st req = errFS e) ∧
       (req.op = "list" → st.readDir req.path = .error e → FS st req = errFS e) ∧
       (req.op = "stat" → st.statMeta req.path = .error e → FS st req = errFS e) ∧
       (req.op = "move" → req.dest ≠ "" → st.rename req.path req.dest = .error e →
         FS st req = errFS e) ∧
       (req.op = "copy" → req.dest ≠ "" → st.statMeta req.path = .error e →
         FS st req = errFS e))) := by
  refine ⟨?_, ?_, ?_, ?_⟩
  · intro hp hops
    simp only [List.mem_cons, List.not_mem_nil, or_false] at hops
    rcases hops with h | h | h | h | h | h | h <;>
      exact ⟨by simp [FS, h, hp, readFileM, writeFileM, appendFileM, removeAllM,
          makeDirM, removeDirM, statPathM],
        by simp [FS, h, hp, readFileM, writeFileM, appendFileM, removeAllM,
          makeDirM, removeDirM, statPathM]⟩
  · intro hp hops
    rcases hops with h | h <;>
      exact ⟨by simp [FS, h, hp, movePathM, copyPathM],
        by simp [FS, h, hp, movePathM, copyPathM]⟩
  · intro hop hp
    simp [FS, hop, hp, listDirM]
  · intro e hp
    refine ⟨?_, ?_, ?_, ?_, ?_, ?_, ?_, ?_, ?_, ?_⟩
    · intro hop herr
      simp [FS, hop, readFileM, hp, herr]
    · intro hop herr
      simp [FS, hop, writeFileM, hp, herr]
    · intro hop herr
      simp [FS, hop, appendFileM, hp, herr]
    · intro hop herr
      simp [FS, hop, removeAllM, hp, herr]
    · intro hop herr
      simp [FS, hop, makeDirM, hp, herr]
    · intro hop herr
      simp [FS, hop, removeDirM, hp, herr]
    · intro hop herr
      simp [FS, hop, listDirM, hp, herr]
    · intro hop herr
      simp [FS, hop, statPathM, hp, herr]
    · intro hop hdest herr
      simp [FS, hop, movePathM, hp, hdest, herr]
    · intro hop hdest herr
      simp [FS, hop, copyPathM, hp, hdest, herr]

/-- C8 counterexample: the `list` operation invoked with an empty path does
not return a validation error — it defaults the path to `"."` and touches
storage, succeeding when the listing succeeds. -/
theorem c8_counterexample :
    FS storageEmptyList ⟨"list", "", "", ""⟩ = ⟨true, some (.entries []), ""⟩ ∧
    (FS storageEmptyList ⟨"list", "", "", ""⟩).ok = true :=
  ⟨rfl, rfl⟩

/-- Witness for `c8_fs_validation`: a `read` with an empty path yields the
validation error on any storage oracle — the same result on two oracles with
different behavior — and a `read` of a path the storage rejects surfaces the
storage's message verbatim. -/
theorem c8_fs_validation_witness :
    FS storageEmptyList ⟨"read", "", "", ""⟩ = errFS "path is required" ∧
    FS storageEmptyList ⟨"read", "", "", ""⟩ = FS storageErrAll ⟨"read", "", "", ""⟩ ∧
    FS storageErrAll ⟨"read", "/x", "", ""⟩ =
      errFS "open /x: no such file or directory" := by
  refine ⟨?_, ?_, ?_⟩
  · exact ((c8_fs_validation storageEmptyList storageErrAll ⟨"read", "", "", ""⟩).1
      rfl (by decide)).1
  · exact ((c8_fs_validation storageEmptyList storageErrAll ⟨"read", "", "", ""⟩).1
      rfl (by decide)).2
  · exact (((c8_fs_validation storageErrAll storageEmptyList
      ⟨"read", "/x", "", ""⟩).2.2.2 "open /x: no such file or directory"
      (by decide)).1 rfl rfl)

end Gogo
